import Mathlib

/-!
Verification of the QuinLang VM pipeline: a shallow embedding of the VM
bytecode interpreter (runtime/vm.py) and the VM code generator
(compiler/codegen_vm.py), with theorems settling the specification's claims
about call lowering, comparisons, short-circuit evaluation, bounds checks,
division, exit codes, function epilogues, stack discipline, cancellation,
and string interning.

Machine integers are modelled as unbounded `Int` (Python's `int`), with
explicit `% 2^16` masks exactly where the Python code applies `& 0xFFFF`.
Python list indexing (which accepts one round of negative indices) is
modelled by `pyIndex`/`pyListGet`.
-/

set_option maxRecDepth 10000
set_option maxHeartbeats 1000000

/-- Python's `x & 0xFFFF` on an arbitrary int: reduce modulo 2^16 into
`[0, 65536)`. `Int.emod` agrees with Python `%` for a positive modulus. -/
def mask16 (x : Int) : Int := x % 65536

/-- Python list index resolution: a non-negative index must be below the
length; a negative index gets one round of wrap-around (`xs[-1]` is the last
element); anything else is an `IndexError`. -/
def pyIndex (len : Nat) (i : Int) : Option Nat :=
  if 0 ≤ i then
    (if i < (len : Int) then some i.toNat else none)
  else
    (if 0 ≤ (len : Int) + i then some ((len : Int) + i).toNat else none)

/-- Python `xs[i]` on a list (read). -/
def pyListGet {α : Type} (xs : List α) (i : Int) : Option α :=
  (pyIndex xs.length i).bind (fun j => xs[j]?)

/-- Python `xs[i] = v` on a list (write). -/
def pyListSet {α : Type} (xs : List α) (i : Int) (v : α) : Option (List α) :=
  (pyIndex xs.length i).map (fun j => xs.set j v)

/-- The VM opcode set, from `compiler/bytecode.py` (`class OpCode`). -/
inductive OpCode where
  | PUSH_INT | LOAD_LOCAL | STORE_LOCAL
  | ADD | SUB | MUL | DIV | NEG
  | CMP_EQ | CMP_NE | CMP_LT | CMP_LE | CMP_GT | CMP_GE
  | NOT
  | JMP | JZ | JNZ
  | CALL | RET
  | LOAD_LOCAL_IDX | STORE_LOCAL_IDX
  | LOAD_INDIRECT | STORE_INDIRECT | MEMCPY_LOCALS | MEMSET_LOCALS
  | PRINT_INT | PRINT_STR | PRINTLN_INT | PRINTLN_STR
deriving DecidableEq, Repr

/-- An instruction: opcode plus optional integer operand
(`compiler/bytecode.py`, `class Instruction`, `Operand = Union[int, None]`). -/
structure Instruction where
  op : OpCode
  arg : Option Int := none
deriving DecidableEq, Repr

/-- Per-function runtime metadata (`runtime/vm.py`, `class FunctionInfo`). -/
structure FunctionInfo where
  name : String
  entryPc : Nat
  numLocals : Nat
  numParams : Nat
deriving DecidableEq, Repr

/-- The mutable interpreter state of `QuinVM`: value stack, call stack of
`(return_pc, saved_locals)` pairs, program counter, current frame's locals,
the output accumulated through `_output`, and the cancellation flag
(`_stop_requested`). -/
structure VMState where
  stack : List Int
  callStack : List (Int × List Int)
  pc : Int
  locals : List Int
  out : List String
  stopRequested : Bool
deriving DecidableEq, Repr

/-- How a `_run` invocation can end: normal completion with an exit code
(`return ret_val` / falling off the end), the distinguished stopped outcome
(`ExecutionStopped`), or a runtime error (`RuntimeError` or an uncaught
Python exception such as `IndexError`/`TypeError`). -/
inductive Outcome where
  | finished (exit : Int)
  | stopped
  | error (msg : String)
deriving DecidableEq, Repr

/-- Result of one trip through the dispatch loop: continue with a new state,
or halt with an outcome (the state is kept for its accumulated output). -/
inductive StepRes where
  | next (s : VMState)
  | halt (o : Outcome) (s : VMState)
deriving DecidableEq, Repr

/-- String table lookup `self.strings.get(sid, "")`. -/
def stringsGet (strings : List (Int × String)) (sid : Int) : String :=
  (strings.lookup sid).getD ""

/-- Install call arguments into a fresh frame: `[0]*num_locals`, then
`locals[i] = args[i] & 0xFFFF` for each argument index below `num_locals`
(`runtime/vm.py` CALL handler). -/
def setArgs (numLocals : Nat) (args : List Int) : List Int :=
  (args.map mask16).take numLocals ++ List.replicate (numLocals - args.length) 0

/-- Sequential loop of `MEMCPY_LOCALS`: copy `n` elements one at a time in
ascending order, bounds-checking each source and destination slot. -/
def memcpyGo (dst src : Int) : Nat → Int → List Int → Option (List Int)
  | 0, _, xs => some xs
  | n + 1, i, xs =>
    let si := src + i
    let di := dst + i
    if si < 0 ∨ (xs.length : Int) ≤ si ∨ di < 0 ∨ (xs.length : Int) ≤ di then none
    else memcpyGo dst src n (i + 1) (xs.set di.toNat (xs.getD si.toNat 0))

/-- Sequential loop of `MEMSET_LOCALS`: fill `n` slots in ascending order,
bounds-checking each destination slot. -/
def memsetGo (dst value : Int) : Nat → Int → List Int → Option (List Int)
  | 0, _, xs => some xs
  | n + 1, i, xs =>
    let di := dst + i
    if di < 0 ∨ (xs.length : Int) ≤ di then none
    else memsetGo dst value n (i + 1) (xs.set di.toNat value)

/-- One iteration of `QuinVM._run`'s dispatch loop. The loop guard
`while self.pc < len(code)` is checked first (falling off the end returns
exit code 0), then the stop flag, then the instruction at `pc` is fetched,
`pc` is incremented, and the opcode is dispatched. Each branch mirrors the
corresponding `elif` in `runtime/vm.py`. -/
def vmStep (code : List Instruction) (functions : List FunctionInfo)
    (strings : List (Int × String)) (s : VMState) : StepRes :=
  if s.pc < (code.length : Int) then
    if s.stopRequested then .halt .stopped s
    else
      match pyListGet code s.pc with
      | none => .halt (.error "IndexError") s
      | some instr =>
        let s := { s with pc := s.pc + 1 }
        match instr.op with
        | .PUSH_INT =>
          match instr.arg with
          | none => .halt (.error "TypeError") s
          | some a => .next { s with stack := a :: s.stack }
        | .LOAD_LOCAL =>
          match instr.arg with
          | none => .halt (.error "TypeError") s
          | some a =>
            match pyListGet s.locals a with
            | none => .halt (.error "IndexError") s
            | some v => .next { s with stack := v :: s.stack }
        | .STORE_LOCAL =>
          match s.stack, instr.arg with
          | [], _ => .halt (.error "pop from empty list") s
          | _, none => .halt (.error "TypeError") s
          | v :: rest, some a =>
            match pyListSet s.locals a v with
            | none => .halt (.error "IndexError") s
            | some ls => .next { s with stack := rest, locals := ls }
        | .ADD =>
          match s.stack with
          | b :: a :: rest => .next { s with stack := mask16 (a + b) :: rest }
          | _ => .halt (.error "pop from empty list") s
        | .SUB =>
          match s.stack with
          | b :: a :: rest => .next { s with stack := mask16 (a - b) :: rest }
          | _ => .halt (.error "pop from empty list") s
        | .MUL =>
          match s.stack with
          | b :: a :: rest => .next { s with stack := mask16 (a * b) :: rest }
          | _ => .halt (.error "pop from empty list") s
        | .DIV =>
          match s.stack with
          | b :: a :: rest =>
            if b = 0 then .halt (.error "Division by zero") s
            else .next { s with stack := Int.fdiv a b :: rest }
          | _ => .halt (.error "pop from empty list") s
        | .NEG =>
          match s.stack with
          | a :: rest => .next { s with stack := mask16 (-a) :: rest }
          | _ => .halt (.error "pop from empty list") s
        | .CMP_EQ =>
          match s.stack with
          | b :: a :: rest => .next { s with stack := (if a = b then 1 else 0) :: rest }
          | _ => .halt (.error "pop from empty list") s
        | .CMP_NE =>
          match s.stack with
          | b :: a :: rest => .next { s with stack := (if a = b then 0 else 1) :: rest }
          | _ => .halt (.error "pop from empty list") s
        | .CMP_LT =>
          match s.stack with
          | b :: a :: rest => .next { s with stack := (if a < b then 1 else 0) :: rest }
          | _ => .halt (.error "pop from empty list") s
        | .CMP_LE =>
          match s.stack with
          | b :: a :: rest => .next { s with stack := (if a ≤ b then 1 else 0) :: rest }
          | _ => .halt (.error "pop from empty list") s
        | .CMP_GT =>
          match s.stack with
          | b :: a :: rest => .next { s with stack := (if b < a then 1 else 0) :: rest }
          | _ => .halt (.error "pop from empty list") s
        | .CMP_GE =>
          match s.stack with
          | b :: a :: rest => .next { s with stack := (if b ≤ a then 1 else 0) :: rest }
          | _ => .halt (.error "pop from empty list") s
        | .NOT =>
          match s.stack with
          | a :: rest => .next { s with stack := (if a = 0 then 1 else 0) :: rest }
          | _ => .halt (.error "pop from empty list") s
        | .JMP =>
          match instr.arg with
          | none => .halt (.error "TypeError") s
          | some a => .next { s with pc := a }
        | .JZ =>
          match s.stack, instr.arg with
          | [], _ => .halt (.error "pop from empty list") s
          | _, none => .halt (.error "TypeError") s
          | v :: rest, some a =>
            if v = 0 then .next { s with stack := rest, pc := a }
            else .next { s with stack := rest }
        | .JNZ =>
          match s.stack, instr.arg with
          | [], _ => .halt (.error "pop from empty list") s
          | _, none => .halt (.error "TypeError") s
          | v :: rest, some a =>
            if v = 0 then .next { s with stack := rest }
            else .next { s with stack := rest, pc := a }
        | .CALL =>
          match instr.arg with
          | none => .halt (.error "TypeError") s
          | some fnId =>
            match pyListGet functions fnId with
            | none => .halt (.error "IndexError") s
            | some fn =>
              if s.stack.length < fn.numParams then
                .halt (.error "Stack underflow when popping call arguments") s
              else
                .next { s with
                  stack := s.stack.drop fn.numParams,
                  callStack := (s.pc, s.locals) :: s.callStack,
                  locals := setArgs fn.numLocals ((s.stack.take fn.numParams).reverse),
                  pc := (fn.entryPc : Int) }
        | .RET =>
          match s.stack with
          | [] =>
            match s.callStack with
            | [] => .halt (.finished 0) s
            | (rpc, prevLocals) :: cs =>
              .next { s with stack := [0], callStack := cs, locals := prevLocals, pc := rpc }
          | v :: rest =>
            match s.callStack with
            | [] => .halt (.finished v) { s with stack := rest }
            | (rpc, prevLocals) :: cs =>
              .next { s with stack := v :: rest, callStack := cs, locals := prevLocals, pc := rpc }
        | .LOAD_LOCAL_IDX =>
          match s.stack, instr.arg with
          | [], _ => .halt (.error "pop from empty list") s
          | _, none => .halt (.error "TypeError") s
          | idx :: rest, some base =>
            match pyListGet s.locals (base + idx) with
            | none => .halt (.error "IndexError") s
            | some v => .next { s with stack := v :: rest }
        | .STORE_LOCAL_IDX =>
          match s.stack, instr.arg with
          | idx :: val :: rest, some base =>
            if base + idx < 0 ∨ (s.locals.length : Int) ≤ base + idx then
              .halt (.error "STORE_LOCAL_IDX out of range") s
            else
              .next { s with stack := rest, locals := s.locals.set (base + idx).toNat val }
          | _ :: _, none => .halt (.error "TypeError") s
          | _, _ => .halt (.error "pop from empty list") s
        | .LOAD_INDIRECT =>
          match s.stack with
          | p :: rest =>
            if p < 0 ∨ (s.locals.length : Int) ≤ p then
              .halt (.error "LOAD_INDIRECT out of range") s
            else
              .next { s with stack := s.locals.getD p.toNat 0 :: rest }
          | _ => .halt (.error "pop from empty list") s
        | .STORE_INDIRECT =>
          match s.stack with
          | v :: p :: rest =>
            if p < 0 ∨ (s.locals.length : Int) ≤ p then
              .halt (.error "STORE_INDIRECT out of range") s
            else
              .next { s with stack := rest, locals := s.locals.set p.toNat v }
          | _ => .halt (.error "pop from empty list") s
        | .MEMCPY_LOCALS =>
          match s.stack with
          | count :: src :: dst :: rest =>
            if count < 0 then .halt (.error "MEMCPY_LOCALS negative count") s
            else
              match memcpyGo dst src count.toNat 0 s.locals with
              | none => .halt (.error "MEMCPY_LOCALS out of range") s
              | some ls => .next { s with stack := rest, locals := ls }
          | _ => .halt (.error "pop from empty list") s
        | .MEMSET_LOCALS =>
          match s.stack with
          | count :: value :: dst :: rest =>
            if count < 0 then .halt (.error "MEMSET_LOCALS negative count") s
            else
              match memsetGo dst value count.toNat 0 s.locals with
              | none => .halt (.error "MEMSET_LOCALS out of range") s
              | some ls => .next { s with stack := rest, locals := ls }
          | _ => .halt (.error "pop from empty list") s
        | .PRINT_INT =>
          match s.stack with
          | v :: rest => .next { s with stack := rest, out := s.out ++ [toString v] }
          | _ => .halt (.error "pop from empty list") s
        | .PRINT_STR =>
          match s.stack with
          | sid :: rest => .next { s with stack := rest, out := s.out ++ [stringsGet strings sid] }
          | _ => .halt (.error "pop from empty list") s
        | .PRINTLN_INT =>
          match s.stack with
          | v :: rest => .next { s with stack := rest, out := s.out ++ [toString v ++ "\n"] }
          | _ => .halt (.error "pop from empty list") s
        | .PRINTLN_STR =>
          match s.stack with
          | sid :: rest =>
            .next { s with stack := rest, out := s.out ++ [stringsGet strings sid ++ "\n"] }
          | _ => .halt (.error "pop from empty list") s
  else
    .halt (.finished 0) s

/-- Run up to `fuel` dispatches; `none` means the fuel ran out first. -/
def runVM (code : List Instruction) (functions : List FunctionInfo)
    (strings : List (Int × String)) : Nat → VMState → Option (Outcome × VMState)
  | 0, _ => none
  | fuel + 1, s =>
    match vmStep code functions strings s with
    | .next s' => runVM code functions strings fuel s'
    | .halt o s' => some (o, s')

/-- Run exactly `n` dispatches that all continue; `none` if one halts. -/
def vmNexts (code : List Instruction) (functions : List FunctionInfo)
    (strings : List (Int × String)) : Nat → VMState → Option VMState
  | 0, s => some s
  | n + 1, s =>
    match vmStep code functions strings s with
    | .next s' => vmNexts code functions strings n s'
    | .halt _ _ => none

/-- Last index of a function with the given name, mirroring the dict
comprehension `{f.name: i for i, f in enumerate(functions)}` in
`QuinVM.__init__`, where a later entry overwrites an earlier one. -/
def funcIndexFrom : List FunctionInfo → String → Nat → Option Nat
  | [], _, _ => none
  | f :: fs, n, i =>
    match funcIndexFrom fs n (i + 1) with
    | some j => some j
    | none => if f.name = n then some i else none

/-- The entry state `run_main` builds before calling `_run`: zeroed locals
for `main`'s frame and `pc` at `main`'s entry point. -/
def initialState (fn : FunctionInfo) : VMState :=
  { stack := [], callStack := [], pc := (fn.entryPc : Int),
    locals := List.replicate fn.numLocals 0, out := [], stopRequested := false }

/-- `QuinVM.run_main`: resolve `main` (a missing `main` is a runtime error
raised before the dispatch loop starts), build the initial frame, run. -/
def runMain (code : List Instruction) (functions : List FunctionInfo)
    (strings : List (Int × String)) (fuel : Nat) : Option (Outcome × VMState) :=
  match funcIndexFrom functions "main" 0 with
  | none => some (.error "No main function defined",
      { stack := [], callStack := [], pc := 0, locals := [], out := [], stopRequested := false })
  | some i =>
    match functions[i]? with
    | none => none
    | some fn => runVM code functions strings fuel (initialState fn)

/-! ## Types and AST (compiler/types.py, compiler/ast.py) -/

/-- The scalar type model from `compiler/types.py` (`Type(name, size)`,
structural equality). Named `Ty` with `Ty*` constants since `Int`/`Str`
collide with Lean names. -/
structure Ty where
  name : String
  size : Int
deriving DecidableEq, Repr

def TyInt : Ty := ⟨"int", 2⟩
def TyStr : Ty := ⟨"str", 2⟩
def TyVoid : Ty := ⟨"void", 0⟩
def TyBool : Ty := ⟨"bool", 1⟩
def TyPtr : Ty := ⟨"ptr", 2⟩

/-- Expressions (`compiler/ast.py`). Python's single `Literal(int|str|bool|None)`
is split into one constructor per payload kind; `litBool` comes first in the
Python `isinstance` chain because `bool` is a subclass of `int`. -/
inductive Expr where
  | litBool (value : Bool)
  | litInt (value : Int)
  | litStr (value : String)
  | litNone
  | ident (name : String)
  | unary (op : String) (right : Expr)
  | binary (left : Expr) (op : String) (right : Expr)
  | call (callee : String) (args : List Expr)
  | index (array : Expr) (idx : Expr)
  | addressOf (target : Expr)

/-- Statements (`compiler/ast.py`). `Block` is omitted: the parser never
produces it and `CodeGenVM._emit_stmt` has no case for it. -/
inductive Stmt where
  | exprStmt (expr : Expr)
  | varDecl (name : String) (typeName : Option String) (init : Option Expr)
  | assign (target : Expr) (value : Expr)
  | print (value : Expr)
  | println (value : Expr)
  | ret (value : Option Expr)
  | inlineAsm (code : String)
  | vmAsm (code : String)
  | ifS (cond : Expr) (thenBlock : List Stmt) (elseBlock : Option (List Stmt))
  | whileS (cond : Expr) (body : List Stmt)

structure Param where
  name : String
  typeName : String
deriving DecidableEq, Repr

structure Function where
  name : String
  params : List Param
  returnType : Option String
  body : List Stmt

structure Program where
  functions : List Function

/-- The semantic side table `Context.node_type`, as consumed by the code
generator through `ctx.get_type(node)` (used only to pick the string or
integer variant of print instructions). Modelled as a type oracle. -/
def Ctx : Type := Expr → Ty

/-! ## Code generator state and layout (compiler/codegen_vm.py) -/

/-- Per-function layout (`FunctionLayout` dataclass). -/
structure FunctionLayout where
  name : String
  numLocals : Nat
  localIndex : List (String × Nat)
  entryPc : Nat
  arrays : List (String × Nat)
  numParams : Nat
deriving DecidableEq, Repr

/-- The mutable attributes of `CodeGenVM`. Dict writes are modelled by
prepending (so `List.lookup` sees the latest binding, like a dict read). -/
structure CGState where
  code : List Instruction
  functions : List FunctionLayout
  strings : List (Int × String)
  stringCounter : Int
  funcNameToIndex : List (String × Nat)
deriving DecidableEq, Repr

def initCG : CGState := ⟨[], [], [], 0, []⟩

/-- Append one instruction (`self.code.append(...)`). -/
def emit (st : CGState) (i : Instruction) : CGState :=
  { st with code := st.code ++ [i] }

/-- `CodeGenVM._add_string`: allocate the next ID unconditionally — string
contents are never deduplicated. -/
def addString (st : CGState) (v : String) : Int × CGState :=
  (st.stringCounter,
   { st with stringCounter := st.stringCounter + 1,
             strings := st.strings ++ [(st.stringCounter, v)] })

/-- Backpatch the operand of the instruction at position `n`
(`self.code[i].arg = target`). Out-of-range positions never occur. -/
def patchArg : List Instruction → Nat → Int → List Instruction
  | [], _, _ => []
  | ins :: rest, 0, a => { ins with arg := some a } :: rest
  | ins :: rest, n + 1, a => ins :: patchArg rest n a

/-- Parse the `N` out of a type-name string of the form `int[N]`
(`_build_layout`'s startswith/endswith check plus `int(inner)`; Lean's
`String.toInt?` matches Python `int` on the digit strings this compiler
builds such names from). -/
def arrayLenOfTypeName (tn : String) : Option Int :=
  if tn.startsWith "int[" ∧ tn.endsWith "]" then ((tn.drop 4).dropRight 1).toInt?
  else none

/-- Accumulator of `_build_layout`'s walk: `local_index`, `arrays`, and the
next free slot. -/
structure LayoutAcc where
  localIndex : List (String × Nat)
  arrays : List (String × Nat)
  nextIdx : Nat
deriving DecidableEq, Repr

/-- The `VarDecl` case of `_build_layout.visit_stmt`: allocate `N`
consecutive slots for an `int[N]` declaration, one slot otherwise; names
already present are skipped. -/
def visitVar (acc : LayoutAcc) (name : String) (typeName : Option String) : LayoutAcc :=
  if (acc.localIndex.lookup name).isSome then acc
  else
    match typeName.bind arrayLenOfTypeName with
    | some n =>
      if 0 < n then
        { localIndex := (name, acc.nextIdx) :: acc.localIndex,
          arrays := (name, n.toNat) :: acc.arrays,
          nextIdx := acc.nextIdx + n.toNat }
      else
        { acc with localIndex := (name, acc.nextIdx) :: acc.localIndex,
                   nextIdx := acc.nextIdx + 1 }
    | none =>
      { acc with localIndex := (name, acc.nextIdx) :: acc.localIndex,
                 nextIdx := acc.nextIdx + 1 }

mutual

/-- `_build_layout.visit_stmt`: pre-order walk collecting declarations,
descending into `if`/`while` bodies. -/
def visitStmt (acc : LayoutAcc) : Stmt → LayoutAcc
  | .varDecl name typeName _ => visitVar acc name typeName
  | .ifS _ thenB elseB =>
    let acc := visitStmts acc thenB
    match elseB with
    | some elseS => visitStmts acc elseS
    | none => acc
  | .whileS _ body => visitStmts acc body
  | _ => acc

def visitStmts (acc : LayoutAcc) : List Stmt → LayoutAcc
  | [] => acc
  | s :: rest => visitStmts (visitStmt acc s) rest

end

/-- `CodeGenVM._build_layout`: parameters take slots `0..num_params-1` in
order, then the body walk allocates the rest; `entry_pc` is filled in later
by `generate`. -/
def buildLayout (fn : Function) : FunctionLayout :=
  let accP := fn.params.foldl
    (fun acc p =>
      if (acc.localIndex.lookup p.name).isSome then acc
      else { acc with localIndex := (p.name, acc.nextIdx) :: acc.localIndex,
                      nextIdx := acc.nextIdx + 1 })
    (⟨[], [], 0⟩ : LayoutAcc)
  let accB := visitStmts accP fn.body
  ⟨fn.name, accB.nextIdx, accB.localIndex, 0, accB.arrays, fn.params.length⟩

/-! ## Expression lowering (CodeGenVM._emit_expr) -/

mutual

/-- `CodeGenVM._emit_expr`, branch for branch. A guarded direct dict access
(`layout.local_index[name]` under an `in layout.arrays` guard) raises
`KeyError` when the key is absent, hence the `Except`. -/
def emitExpr (layout : FunctionLayout) (ctx : Ctx) (st : CGState) : Expr → Except String CGState
  | .litBool b => .ok (emit st ⟨.PUSH_INT, some (if b then 1 else 0)⟩)
  | .litInt n => .ok (emit st ⟨.PUSH_INT, some n⟩)
  | .litStr v =>
    let (sid, st) := addString st v
    .ok (emit st ⟨.PUSH_INT, some sid⟩)
  | .litNone => .ok st
  | .ident name =>
    match layout.localIndex.lookup name with
    | some idx => .ok (emit st ⟨.LOAD_LOCAL, some (idx : Int)⟩)
    | none => .ok (emit st ⟨.PUSH_INT, some 0⟩)
  | .addressOf target =>
    match target with
    | .ident name =>
      match layout.localIndex.lookup name with
      | some idx => .ok (emit st ⟨.PUSH_INT, some (idx : Int)⟩)
      | none => .ok (emit st ⟨.PUSH_INT, some 0⟩)
    | .index (.ident arrName) idxExpr =>
      if (layout.arrays.lookup arrName).isSome then
        match layout.localIndex.lookup arrName with
        | none => .error "KeyError"
        | some base => do
          let st ← emitExpr layout ctx st idxExpr
          .ok (emit (emit st ⟨.PUSH_INT, some (base : Int)⟩) ⟨.ADD, none⟩)
      else .ok (emit st ⟨.PUSH_INT, some 0⟩)
    | _ => .ok (emit st ⟨.PUSH_INT, some 0⟩)
  | .unary op right => do
    let st ← emitExpr layout ctx st right
    if op = "-" then .ok (emit st ⟨.NEG, none⟩)
    else if op = "!" then .ok (emit st ⟨.NOT, none⟩)
    else .ok st
  | .binary left op right =>
    if op = "&&" then do
      let st ← emitExpr layout ctx st left
      let jzIndex := st.code.length
      let st := emit st ⟨.JZ, some 0⟩
      let st ← emitExpr layout ctx st right
      let jz2Index := st.code.length
      let st := emit st ⟨.JZ, some 0⟩
      let st := emit st ⟨.PUSH_INT, some 1⟩
      let jmpEndIndex := st.code.length
      let st := emit st ⟨.JMP, some 0⟩
      let falsePc := st.code.length
      let st := emit st ⟨.PUSH_INT, some 0⟩
      let endPc := st.code.length
      let code := patchArg (patchArg (patchArg st.code jzIndex falsePc) jz2Index falsePc)
        jmpEndIndex endPc
      .ok { st with code := code }
    else if op = "||" then do
      let st ← emitExpr layout ctx st left
      let jnzIndex := st.code.length
      let st := emit st ⟨.JNZ, some 0⟩
      let st ← emitExpr layout ctx st right
      let jnz2Index := st.code.length
      let st := emit st ⟨.JNZ, some 0⟩
      let st := emit st ⟨.PUSH_INT, some 0⟩
      let jmpEndIndex := st.code.length
      let st := emit st ⟨.JMP, some 0⟩
      let truePc := st.code.length
      let st := emit st ⟨.PUSH_INT, some 1⟩
      let endPc := st.code.length
      let code := patchArg (patchArg (patchArg st.code jnzIndex truePc) jnz2Index truePc)
        jmpEndIndex endPc
      .ok { st with code := code }
    else do
      let st ← emitExpr layout ctx st left
      let st ← emitExpr layout ctx st right
      if op = "+" then .ok (emit st ⟨.ADD, none⟩)
      else if op = "-" then .ok (emit st ⟨.SUB, none⟩)
      else if op = "*" then .ok (emit st ⟨.MUL, none⟩)
      else if op = "/" then .ok (emit st ⟨.DIV, none⟩)
      else if op = "==" then .ok (emit st ⟨.CMP_EQ, none⟩)
      else if op = "!=" then .ok (emit st ⟨.CMP_NE, none⟩)
      else if op = "<" then .ok (emit st ⟨.CMP_LT, none⟩)
      else if op = "<=" then .ok (emit st ⟨.CMP_LE, none⟩)
      else if op = ">" then .ok (emit st ⟨.CMP_GT, none⟩)
      else if op = ">=" then .ok (emit st ⟨.CMP_GE, none⟩)
      else .ok st
  | .index array idxExpr =>
    match array with
    | .ident arrName =>
      if (layout.arrays.lookup arrName).isSome then
        match layout.localIndex.lookup arrName with
        | none => .error "KeyError"
        | some base => do
          let st ← emitExpr layout ctx st idxExpr
          .ok (emit st ⟨.LOAD_LOCAL_IDX, some (base : Int)⟩)
      else .ok (emit st ⟨.PUSH_INT, some 0⟩)
    | _ => .ok (emit st ⟨.PUSH_INT, some 0⟩)
  | .call "array_push" [arrExpr, lenExpr, valExpr] =>
    (match arrExpr with
    | .ident arrName =>
      if (layout.arrays.lookup arrName).isSome then
        match layout.localIndex.lookup arrName with
        | none => .error "KeyError"
        | some base => do
          let st ← emitExpr layout ctx st valExpr
          let st ← emitExpr layout ctx st lenExpr
          let st := emit st ⟨.STORE_LOCAL_IDX, some (base : Int)⟩
          let st ← emitExpr layout ctx st lenExpr
          .ok (emit (emit st ⟨.PUSH_INT, some 1⟩) ⟨.ADD, none⟩)
      else do
        let st ← emitExpr layout ctx st lenExpr
        .ok (emit (emit st ⟨.PUSH_INT, some 1⟩) ⟨.ADD, none⟩)
    | _ => do
      let st ← emitExpr layout ctx st lenExpr
      .ok (emit (emit st ⟨.PUSH_INT, some 1⟩) ⟨.ADD, none⟩))
  | .call "array_pop" [arrExpr, lenExpr] =>
    (match arrExpr with
    | .ident arrName =>
      if (layout.arrays.lookup arrName).isSome then
        match layout.localIndex.lookup arrName with
        | none => .error "KeyError"
        | some base => do
          let st ← emitExpr layout ctx st lenExpr
          let st := emit (emit st ⟨.PUSH_INT, some 1⟩) ⟨.SUB, none⟩
          .ok (emit st ⟨.LOAD_LOCAL_IDX, some (base : Int)⟩)
      else .ok (emit st ⟨.PUSH_INT, some 0⟩)
    | _ => .ok (emit st ⟨.PUSH_INT, some 0⟩))
  | .call "load16" [pExpr] => do
    let st ← emitExpr layout ctx st pExpr
    .ok (emit st ⟨.LOAD_INDIRECT, none⟩)
  | .call "store16" [pExpr, vExpr] => do
    let st ← emitExpr layout ctx st pExpr
    let st ← emitExpr layout ctx st vExpr
    .ok (emit (emit st ⟨.STORE_INDIRECT, none⟩) ⟨.PUSH_INT, some 0⟩)
  | .call "memcpy" [dstE, srcE, cntE] => do
    let st ← emitExpr layout ctx st dstE
    let st ← emitExpr layout ctx st srcE
    let st ← emitExpr layout ctx st cntE
    .ok (emit (emit st ⟨.MEMCPY_LOCALS, none⟩) ⟨.PUSH_INT, some 0⟩)
  | .call "memset" [dstE, vE, cntE] => do
    let st ← emitExpr layout ctx st dstE
    let st ← emitExpr layout ctx st vE
    let st ← emitExpr layout ctx st cntE
    .ok (emit (emit st ⟨.MEMSET_LOCALS, none⟩) ⟨.PUSH_INT, some 0⟩)
  | .call "ct_eq" [aE, bE] => do
    let st ← emitExpr layout ctx st aE
    let st ← emitExpr layout ctx st bE
    .ok (emit st ⟨.CMP_EQ, none⟩)
  | .call "ct_select" [maskE, xE, yE] => do
    let st ← emitExpr layout ctx st xE
    let st ← emitExpr layout ctx st yE
    let st := emit st ⟨.SUB, none⟩
    let st ← emitExpr layout ctx st maskE
    let st := emit st ⟨.MUL, none⟩
    let st ← emitExpr layout ctx st yE
    .ok (emit st ⟨.ADD, none⟩)
  | .call name args =>
    match st.funcNameToIndex.lookup name with
    | none => .ok (emit st ⟨.PUSH_INT, some 0⟩)
    | some fnId => do
      let st ← emitExprs layout ctx st args
      .ok (emit st ⟨.CALL, some (fnId : Int)⟩)

/-- The argument loop of the user-call branch: left to right. -/
def emitExprs (layout : FunctionLayout) (ctx : Ctx) (st : CGState) :
    List Expr → Except String CGState
  | [] => .ok st
  | e :: rest => do
    let st ← emitExpr layout ctx st e
    emitExprs layout ctx st rest

end

/-! ## vm_asm lowering (CodeGenVM._emit_vm_asm) -/

/-- Digit value of a character in the given base, or `none`. -/
def digitVal (base : Nat) (c : Char) : Option Nat :=
  let v :=
    if c.isDigit then some (c.toNat - '0'.toNat)
    else if 'a' ≤ c ∧ c ≤ 'z' then some (c.toNat - 'a'.toNat + 10)
    else if 'A' ≤ c ∧ c ≤ 'Z' then some (c.toNat - 'A'.toNat + 10)
    else none
  match v with
  | some d => if d < base then some d else none
  | none => none

/-- Parse a non-empty digit string in the given base. -/
def parseDigits (base : Nat) (s : String) : Option Nat :=
  if s.isEmpty then none
  else s.data.foldlM (fun acc c => (digitVal base c).map (fun d => acc * base + d)) 0

/-- Python `int(text, 0)`: optional sign, then a `0x`/`0o`/`0b` prefix
selects the base; a bare decimal may not have leading zeros (except a string
of all zeros). Underscore separators are not modelled; the vm_asm lines this
is applied to are rebuilt from single number tokens. -/
def pyParseIntBase0 (s : String) : Option Int :=
  let t := s.trim
  let (neg, u) :=
    if t.startsWith "-" then (true, t.drop 1)
    else if t.startsWith "+" then (false, t.drop 1)
    else (false, t)
  let mag : Option Nat :=
    if u.startsWith "0x" ∨ u.startsWith "0X" then parseDigits 16 (u.drop 2)
    else if u.startsWith "0o" ∨ u.startsWith "0O" then parseDigits 8 (u.drop 2)
    else if u.startsWith "0b" ∨ u.startsWith "0B" then parseDigits 2 (u.drop 2)
    else if u.startsWith "0" ∧ ¬ u.data.all (fun c => c = '0') then none
    else parseDigits 10 u
  mag.map (fun n => if neg then -(n : Int) else (n : Int))

/-- Dispatch of one cleaned `vm_asm` line (`_emit_vm_asm`'s loop body after
the strip/semicolon handling): split on whitespace and dispatch on the
mnemonic. Unknown locals, bad integer literals and unknown mnemonics raise
`RuntimeError`. -/
def vmAsmCore (layout : FunctionLayout) (st : CGState) (line : String) : Except String CGState :=
  if line = "" then .ok st
  else
      match (line.split Char.isWhitespace).filter (fun p => p ≠ "") with
      | [] => .error "Unknown or malformed vm_asm instruction"
      | mnemonic :: args =>
        if mnemonic = "push_int" ∧ args.length = 1 then
          match pyParseIntBase0 (args.getD 0 "") with
          | none => .error "vm_asm push_int expects integer literal"
          | some v => .ok (emit st ⟨.PUSH_INT, some v⟩)
        else if mnemonic = "load_local" ∧ args.length = 1 then
          match layout.localIndex.lookup (args.getD 0 "") with
          | none => .error "vm_asm load_local unknown local"
          | some idx => .ok (emit st ⟨.LOAD_LOCAL, some (idx : Int)⟩)
        else if mnemonic = "store_local" ∧ args.length = 1 then
          match layout.localIndex.lookup (args.getD 0 "") with
          | none => .error "vm_asm store_local unknown local"
          | some idx => .ok (emit st ⟨.STORE_LOCAL, some (idx : Int)⟩)
        else if mnemonic = "add" ∧ args = [] then .ok (emit st ⟨.ADD, none⟩)
        else if mnemonic = "sub" ∧ args = [] then .ok (emit st ⟨.SUB, none⟩)
        else if mnemonic = "mul" ∧ args = [] then .ok (emit st ⟨.MUL, none⟩)
        else if mnemonic = "div" ∧ args = [] then .ok (emit st ⟨.DIV, none⟩)
        else if mnemonic = "neg" ∧ args = [] then .ok (emit st ⟨.NEG, none⟩)
        else if mnemonic = "not" ∧ args = [] then .ok (emit st ⟨.NOT, none⟩)
        else if mnemonic = "cmp_eq" ∧ args = [] then .ok (emit st ⟨.CMP_EQ, none⟩)
        else if mnemonic = "cmp_ne" ∧ args = [] then .ok (emit st ⟨.CMP_NE, none⟩)
        else if mnemonic = "cmp_lt" ∧ args = [] then .ok (emit st ⟨.CMP_LT, none⟩)
        else if mnemonic = "cmp_le" ∧ args = [] then .ok (emit st ⟨.CMP_LE, none⟩)
        else if mnemonic = "cmp_gt" ∧ args = [] then .ok (emit st ⟨.CMP_GT, none⟩)
        else if mnemonic = "cmp_ge" ∧ args = [] then .ok (emit st ⟨.CMP_GE, none⟩)
        else .error "Unknown or malformed vm_asm instruction"

/-- One line of a `vm_asm` block: strip it, drop a trailing `;` and strip
again, skip it when empty, then dispatch. -/
def vmAsmLine (layout : FunctionLayout) (st : CGState) (raw : String) : Except String CGState :=
  if raw.trim = "" then .ok st
  else if raw.trim.endsWith ";" then vmAsmCore layout st ((raw.trim.dropRight 1).trim)
  else vmAsmCore layout st raw.trim

/-- `CodeGenVM._emit_vm_asm`: process the block line by line. -/
def emitVmAsm (layout : FunctionLayout) (st : CGState) (code : String) :
    Except String CGState :=
  (code.splitOn "\n").foldlM (fun st raw => vmAsmLine layout st raw) st

/-! ## Statement lowering (CodeGenVM._emit_stmt, _emit_if, _emit_while) -/

/-- The array branch of the `VarDecl` case: zero `length` consecutive slots
(`PUSH_INT 0; STORE_LOCAL (idx+offset)` per element, ascending). -/
def zeroArray (st : CGState) (idx : Nat) (length : Nat) : CGState :=
  (List.range length).foldl
    (fun st off => emit (emit st ⟨.PUSH_INT, some 0⟩) ⟨.STORE_LOCAL, some ((idx + off : Nat) : Int)⟩)
    st

mutual

/-- `CodeGenVM._emit_stmt`. The `If`/`While` cases inline `_emit_if` and
`_emit_while` (including their jump backpatching). -/
def emitStmt (layout : FunctionLayout) (ctx : Ctx) (st : CGState) : Stmt → Except String CGState
  | .varDecl name _ init =>
    match layout.localIndex.lookup name with
    | none => .error "KeyError"
    | some idx =>
      match layout.arrays.lookup name with
      | some length => .ok (zeroArray st idx length)
      | none => do
        let st ←
          match init with
          | some e => emitExpr layout ctx st e
          | none => .ok (emit st ⟨.PUSH_INT, some 0⟩)
        .ok (emit st ⟨.STORE_LOCAL, some (idx : Int)⟩)
  | .assign target value =>
    match target with
    | .ident name =>
      match layout.localIndex.lookup name with
      | none => .ok st
      | some idx => do
        let st ← emitExpr layout ctx st value
        .ok (emit st ⟨.STORE_LOCAL, some (idx : Int)⟩)
    | .index (.ident arrName) idxExpr =>
      if (layout.arrays.lookup arrName).isSome then
        match layout.localIndex.lookup arrName with
        | none => .error "KeyError"
        | some base => do
          let st ← emitExpr layout ctx st value
          let st ← emitExpr layout ctx st idxExpr
          .ok (emit st ⟨.STORE_LOCAL_IDX, some (base : Int)⟩)
      else .ok st
    | _ => .ok st
  | .print value => do
    let st ← emitExpr layout ctx st value
    if ctx value = TyStr then .ok (emit st ⟨.PRINT_STR, none⟩)
    else .ok (emit st ⟨.PRINT_INT, none⟩)
  | .println value => do
    let st ← emitExpr layout ctx st value
    if ctx value = TyStr then .ok (emit st ⟨.PRINTLN_STR, none⟩)
    else .ok (emit st ⟨.PRINTLN_INT, none⟩)
  | .ret value => do
    let st ←
      match value with
      | some e => emitExpr layout ctx st e
      | none => .ok (emit st ⟨.PUSH_INT, some 0⟩)
    .ok (emit st ⟨.RET, none⟩)
  | .exprStmt e => emitExpr layout ctx st e
  | .ifS cond thenBlock elseBlock => do
    let st ← emitExpr layout ctx st cond
    let jzIndex := st.code.length
    let st := emit st ⟨.JZ, some 0⟩
    let st ← emitStmts layout ctx st thenBlock
    let jmpIndex := st.code.length
    let st := emit st ⟨.JMP, some 0⟩
    let elseStart := st.code.length
    let st := { st with code := patchArg st.code jzIndex elseStart }
    let st ←
      match elseBlock with
      | some elseStmts => emitStmts layout ctx st elseStmts
      | none => .ok st
    let endPc := st.code.length
    .ok { st with code := patchArg st.code jmpIndex endPc }
  | .whileS cond body => do
    let loopStart := st.code.length
    let st ← emitExpr layout ctx st cond
    let jzIndex := st.code.length
    let st := emit st ⟨.JZ, some 0⟩
    let st ← emitStmts layout ctx st body
    let st := emit st ⟨.JMP, some (loopStart : Int)⟩
    let loopEnd := st.code.length
    .ok { st with code := patchArg st.code jzIndex loopEnd }
  | .inlineAsm _ => .ok st
  | .vmAsm code => emitVmAsm layout st code

/-- The statement loops in `_emit_function`, `_emit_if`, `_emit_while`. -/
def emitStmts (layout : FunctionLayout) (ctx : Ctx) (st : CGState) :
    List Stmt → Except String CGState
  | [] => .ok st
  | s :: rest => do
    let st ← emitStmt layout ctx st s
    emitStmts layout ctx st rest

end

/-- `CodeGenVM._emit_function`: lower the body, then the epilogue — the
defensive `PUSH_INT 0` is emitted only when the declared return type is
absent or `int`, and `RET` always. -/
def emitFunction (fn : Function) (layout : FunctionLayout) (ctx : Ctx) (st : CGState) :
    Except String CGState := do
  let st ← emitStmts layout ctx st fn.body
  let st :=
    if fn.returnType = none ∨ fn.returnType = some "int" then emit st ⟨.PUSH_INT, some 0⟩
    else st
  .ok (emit st ⟨.RET, none⟩)

/-- The loop of `CodeGenVM.generate`: for each function in program order,
build its layout, stamp `entry_pc`, append it to the function table,
register `name -> index`, and only then emit its body. -/
def genFunctions (ctx : Ctx) (st : CGState) : List Function → Except String CGState
  | [] => .ok st
  | fn :: rest => do
    let layout := { buildLayout fn with entryPc := st.code.length }
    let fnIndex := st.functions.length
    let st := { st with functions := st.functions ++ [layout],
                        funcNameToIndex := (fn.name, fnIndex) :: st.funcNameToIndex }
    let st ← emitFunction fn layout ctx st
    genFunctions ctx st rest

/-- `CodeGenVM.generate` from a fresh `CodeGenVM()`. -/
def generate (program : Program) (ctx : Ctx) : Except String CGState :=
  genFunctions ctx initCG program.functions

/-- The conversion to runtime `FunctionInfo` at the end of `generate`. -/
def toFunctionInfo (fl : FunctionLayout) : FunctionInfo :=
  ⟨fl.name, fl.entryPc, fl.numLocals, fl.numParams⟩

/-! ## Derived notions used by the claims -/

/-- The instruction at position `i` (defaulting to a bare `RET` past the
end, which has no operand to validate). -/
def instrAt (c : List Instruction) (i : Nat) : Instruction :=
  c.getD i ⟨.RET, none⟩

/-- Every name registered in `func_name_to_index` maps to a valid index into
the function table. -/
def FuncIdxOk (st : CGState) : Prop :=
  ∀ p ∈ st.funcNameToIndex, p.2 < st.functions.length

/-- Every `CALL` instruction in the emitted code carries a valid index into
the function table. -/
def CallsValid (st : CGState) : Prop :=
  ∀ i, (instrAt st.code i).op = .CALL →
    ∃ k : Nat, (instrAt st.code i).arg = some (k : Int) ∧ k < st.functions.length

/-- What a single `_emit_*` call does to the generator state: it only
appends code (everything already emitted survives verbatim, backpatches
land in the new suffix), leaves the function table and the name-to-index
registry untouched, and keeps every `CALL` operand valid. -/
def EmitsOk (st st' : CGState) : Prop :=
  (∃ Δ, st'.code = st.code ++ Δ) ∧
  st'.functions = st.functions ∧
  st'.funcNameToIndex = st.funcNameToIndex ∧
  (FuncIdxOk st → CallsValid st → CallsValid st')

/-- Both generator invariants together (maintained across `generate`). -/
def GenOk (st : CGState) : Prop := FuncIdxOk st ∧ CallsValid st

/-- The callee/arity pairs that `_emit_expr` intercepts as builtins before
reaching the user-call branch. -/
def specialCall (name : String) (n : Nat) : Bool :=
  (name == "array_push" && n == 3) || (name == "array_pop" && n == 2) ||
  (name == "load16" && n == 1) || (name == "store16" && n == 2) ||
  (name == "memcpy" && n == 3) || (name == "memset" && n == 3) ||
  (name == "ct_eq" && n == 2) || (name == "ct_select" && n == 3)

/-- The integer-comparison opcode `_emit_expr` pairs with each comparison
operator. -/
def cmpOpcode (op : String) : Option OpCode :=
  if op = "==" then some .CMP_EQ
  else if op = "!=" then some .CMP_NE
  else if op = "<" then some .CMP_LT
  else if op = "<=" then some .CMP_LE
  else if op = ">" then some .CMP_GT
  else if op = ">=" then some .CMP_GE
  else none

/-- A type oracle for programs that never print (the generator only
consults the side table for print statements). -/
def ctxInt : Ctx := fun _ => TyInt

/-- Claim C1's test program: `main` is defined first and calls `f`, which
is defined later in the program text. Well-typed — the semantic analyzer
collects all signatures in a first pass before checking bodies. -/
def progForwardCall : Program :=
  ⟨[⟨"main", [], some "int", [.ret (some (.call "f" []))]⟩,
    ⟨"f", [], some "int", [.ret (some (.litInt 7))]⟩]⟩

/-- Claim C6's test program: `fn main(): int { return 70000; }`. -/
def progBigReturn : Program :=
  ⟨[⟨"main", [], some "int", [.ret (some (.litInt 70000))]⟩]⟩

/-- Claim C8's test program: `fn g(): int { 1; return 5; }` followed by
`fn main(): int { return g(); }`. The expression statement `1;` leaves a
value on the operand stack (the generator emits no pop for it). -/
def progLeakyCallee : Program :=
  ⟨[⟨"g", [], some "int", [.exprStmt (.litInt 1), .ret (some (.litInt 5))]⟩,
    ⟨"main", [], some "int", [.ret (some (.call "g" []))]⟩]⟩

/-- The bytecode `generate` produces for `progLeakyCallee`. -/
def codeLeakyCallee : List Instruction :=
  [⟨.PUSH_INT, some 1⟩, ⟨.PUSH_INT, some 5⟩, ⟨.RET, none⟩, ⟨.PUSH_INT, some 0⟩, ⟨.RET, none⟩,
   ⟨.CALL, some 0⟩, ⟨.RET, none⟩, ⟨.PUSH_INT, some 0⟩, ⟨.RET, none⟩]

/-- The runtime function table for `progLeakyCallee`. -/
def fnsLeakyCallee : List FunctionInfo := [⟨"g", 0, 0, 0⟩, ⟨"main", 5, 0, 0⟩]


/-- The instruction region `_emit_expr` produces for `a && b`: the code of
`a` (`pre`), a `JZ` to the false label, the code of `b` (`Δ`), a second `JZ`
to the false label, `PUSH_INT 1`, a `JMP` over the false label to the end,
and `PUSH_INT 0` at the false label. Offsets are relative to the position
of `pre` at the front. -/
def andCode (pre Δ : List Instruction) : List Instruction :=
  pre ++ ⟨.JZ, some ((pre.length + Δ.length + 4 : Nat) : Int)⟩ :: (Δ ++
    [⟨.JZ, some ((pre.length + Δ.length + 4 : Nat) : Int)⟩, ⟨.PUSH_INT, some 1⟩,
     ⟨.JMP, some ((pre.length + Δ.length + 5 : Nat) : Int)⟩, ⟨.PUSH_INT, some 0⟩])

/-- The mirror region for `a || b`: `JNZ`s to the true label, `PUSH_INT 0`
on the fall-through path, and `PUSH_INT 1` at the true label. -/
def orCode (pre Δ : List Instruction) : List Instruction :=
  pre ++ ⟨.JNZ, some ((pre.length + Δ.length + 4 : Nat) : Int)⟩ :: (Δ ++
    [⟨.JNZ, some ((pre.length + Δ.length + 4 : Nat) : Int)⟩, ⟨.PUSH_INT, some 0⟩,
     ⟨.JMP, some ((pre.length + Δ.length + 5 : Nat) : Int)⟩, ⟨.PUSH_INT, some 1⟩])

/-- A minimal enclosing-function layout for stating per-call lowering facts. -/
def layoutW : FunctionLayout := ⟨"main", 0, [], 0, [], 0⟩

/-- A generator state in which the user function `f` is registered at
index 0 of the function table. -/
def cgWithF : CGState := ⟨[], [⟨"f", 0, [], 0, [], 0⟩], [], 0, [("f", 0)]⟩

/-! ## Claim theorems -/

/-- C9: if the cancellation flag is set and another dispatch is due
(`pc` still inside the code), that dispatch terminates with the distinguished
stopped outcome before executing any instruction: the state — including the
output accumulated so far — is returned untouched, and the outcome is a
different constructor from both normal completion and runtime error. -/
theorem c9_cancellation_stops_next_dispatch (code : List Instruction)
    (functions : List FunctionInfo) (strings : List (Int × String)) (s : VMState)
    (hstop : s.stopRequested = true) (hpc : s.pc < (code.length : Int)) :
    vmStep code functions strings s = .halt .stopped s ∧
    (∀ e, (Outcome.stopped : Outcome) ≠ .finished e) ∧
    (∀ m, (Outcome.stopped : Outcome) ≠ .error m) := by
  refine ⟨?_, ?_, ?_⟩
  · simp [vmStep, hstop, hpc]
  · intro e h
    exact Outcome.noConfusion h
  · intro m h
    exact Outcome.noConfusion h

/-- Witness for C9 at a concrete input: an `ADD` is due but the flag is set,
so the dispatch stops with the output (one chunk, "x") unchanged. -/
theorem c9_cancellation_stops_next_dispatch_witness :
    vmStep [⟨.ADD, none⟩] [] [] ⟨[1, 2], [], 0, [], ["x"], true⟩
      = .halt .stopped ⟨[1, 2], [], 0, [], ["x"], true⟩ :=
  (c9_cancellation_stops_next_dispatch [⟨.ADD, none⟩] [] []
    ⟨[1, 2], [], 0, [], ["x"], true⟩ rfl (by decide)).1

/-- C4 (code bug): `LOAD_LOCAL_IDX` performs no bounds check. With operand
`base = 0` and popped index `-1` on a two-slot frame, the computed slot
`-1` is outside `0..num_locals-1`, yet the interpreter silently pushes
`locals[-1]` (Python's negative indexing reads the last slot, value 20)
instead of raising a runtime error. `STORE_LOCAL_IDX` does have the check,
per its own error message, so the load side is the slip. -/
theorem c4_load_local_idx_silent_negative_read :
    vmStep [⟨.LOAD_LOCAL_IDX, some 0⟩] [] [] ⟨[-1], [], 0, [10, 20], [], false⟩
      = .next ⟨[20], [], 1, [10, 20], [], false⟩ ∧
    ((0 : Int) + -1 < 0 ∨ (2 : Int) ≤ 0 + -1) ∧
    vmStep [⟨.STORE_LOCAL_IDX, some 0⟩] [] [] ⟨[-1, 7], [], 0, [10, 20], [], false⟩
      = .halt (.error "STORE_LOCAL_IDX out of range") ⟨[-1, 7], [], 1, [10, 20], [], false⟩ := by
  decide

/-- C5 (code bug): `DIV` divides the raw 16-bit-masked (hence non-negative)
stack values with Python floor division, not signed truncating division,
despite the `# signed division` comment. Dividing the encoding of `-7`
(65529) by 2 pushes 32764, while signed truncating division would give
`-3`, encoded 65533. Division by zero is correctly a runtime error. -/
theorem c5_div_is_unsigned_floor_not_signed :
    vmStep [⟨.DIV, none⟩] [] [] ⟨[2, 65529], [], 0, [], [], false⟩
      = .next ⟨[32764], [], 1, [], [], false⟩ ∧
    (65529 : Int) = mask16 (-7) ∧
    Int.tdiv (-7) 2 = -3 ∧ mask16 (-3) = 65533 ∧ (32764 : Int) ≠ 65533 ∧
    vmStep [⟨.DIV, none⟩] [] [] ⟨[0, 5], [], 0, [], [], false⟩
      = .halt (.error "Division by zero") ⟨[0, 5], [], 1, [], [], false⟩ := by
  decide

/-- C10: string literal IDs are allocated per occurrence and never
deduplicated. Lowering `"s1" == "s2"` from any generator state allocates the
two consecutive fresh IDs `stringCounter` and `stringCounter + 1` — distinct
even when `s1 = s2` — and emits an integer comparison of those IDs; running
that comparison pushes 0. The second conjunct runs the emitted sequence for
any IDs `k` and `k + 1`: the `CMP_EQ` result is 0 (false). -/
theorem c10_string_ids_fresh_so_eq_is_false (layout : FunctionLayout) (ctx : Ctx)
    (st : CGState) (s1 s2 : String) :
    (emitExpr layout ctx st (.binary (.litStr s1) "==" (.litStr s2)) =
      .ok { st with
        code := st.code ++ [⟨.PUSH_INT, some st.stringCounter⟩,
                            ⟨.PUSH_INT, some (st.stringCounter + 1)⟩, ⟨.CMP_EQ, none⟩],
        strings := st.strings ++ [(st.stringCounter, s1), (st.stringCounter + 1, s2)],
        stringCounter := st.stringCounter + 2 }) ∧
    (∀ (k : Int) (σ : List Int) (cs : List (Int × List Int)) (loc : List Int) (o : List String),
      vmNexts [⟨.PUSH_INT, some k⟩, ⟨.PUSH_INT, some (k + 1)⟩, ⟨.CMP_EQ, none⟩] [] [] 3
          ⟨σ, cs, 0, loc, o, false⟩
        = some ⟨0 :: σ, cs, 3, loc, o, false⟩) := by
  constructor
  · simp [emitExpr, addString, emit, bind, Except.bind]
    omega
  · intro k σ cs loc o
    have hk : k ≠ k + 1 := by omega
    simp [vmNexts, vmStep, pyListGet, pyIndex, hk]

/-- C2 counterexample: for `"a" == "a"` — two operands of static type `str`
with equal contents — the VM code generator emits an integer comparison of
the two freshly allocated string IDs 0 and 1, and running it pushes 0
(false), not a comparison of the string values (which are equal, so a
string comparison would push 1). -/
theorem c2_counterexample_str_eq_compares_ids :
    emitExpr ⟨"main", 0, [], 0, [], 0⟩ ctxInt initCG (.binary (.litStr "a") "==" (.litStr "a"))
      = .ok ⟨[⟨.PUSH_INT, some 0⟩, ⟨.PUSH_INT, some 1⟩, ⟨.CMP_EQ, none⟩],
             [], [(0, "a"), (1, "a")], 2, []⟩ ∧
    vmNexts [⟨.PUSH_INT, some 0⟩, ⟨.PUSH_INT, some 1⟩, ⟨.CMP_EQ, none⟩] [] [] 3
        ⟨[], [], 0, [], [], false⟩
      = some ⟨[0], [], 3, [], [], false⟩ ∧
    ("a" : String) = "a" ∧ (0 : Int) ≠ 1 := by
  refine ⟨by rfl, by decide, rfl, by decide⟩

/-- C2 as amended: for every comparison operator and any two operand
expressions — whatever their static types, including two `str` operands —
the generator emits the operands left then right followed by the integer
comparison opcode for that operator; no string comparison exists in the VM
backend (string operands are therefore compared by interned ID). -/
theorem c2_amended_comparisons_always_integer (layout : FunctionLayout) (ctx : Ctx)
    (st stLR : CGState) (l r : Expr) (op : String) (oc : OpCode)
    (hop : cmpOpcode op = some oc)
    (hlr : (do
      let st1 ← emitExpr layout ctx st l
      emitExpr layout ctx st1 r) = .ok stLR) :
    emitExpr layout ctx st (.binary l op r) = .ok (emit stLR ⟨oc, none⟩) := by
  obtain ⟨st1, hl, hr⟩ : ∃ st1, emitExpr layout ctx st l = .ok st1 ∧
      emitExpr layout ctx st1 r = .ok stLR := by
    cases hl : emitExpr layout ctx st l with
    | ok st1 => exact ⟨st1, rfl, by simpa [hl, bind, Except.bind] using hlr⟩
    | error m => simp [hl, bind, Except.bind] at hlr
  unfold cmpOpcode at hop
  split_ifs at hop with h1 h2 h3 h4 h5 h6
  all_goals cases hop
  all_goals subst_vars
  all_goals simp [emitExpr, hl, hr, bind, Except.bind]

/-- Witness for the amended C2: `1 < 2` lowers to the two pushes followed by
`CMP_LT`. -/
theorem c2_amended_comparisons_always_integer_witness :
    emitExpr ⟨"main", 0, [], 0, [], 0⟩ ctxInt initCG (.binary (.litInt 1) "<" (.litInt 2))
      = .ok (emit ⟨[⟨.PUSH_INT, some 1⟩, ⟨.PUSH_INT, some 2⟩], [], [], 0, []⟩ ⟨.CMP_LT, none⟩) :=
  c2_amended_comparisons_always_integer ⟨"main", 0, [], 0, [], 0⟩ ctxInt initCG
    ⟨[⟨.PUSH_INT, some 1⟩, ⟨.PUSH_INT, some 2⟩], [], [], 0, []⟩
    (.litInt 1) (.litInt 2) "<" .CMP_LT rfl rfl

/-- C6 counterexample: `fn main(): int { return 70000; }` is well-typed (the
analyzer does not bound integer literals, and return values are not checked
against return types), compiles to `PUSH_INT 70000; RET; PUSH_INT 0; RET`,
and the run's exit code is 70000 — not 70000 mod 2^16 = 4464. Values only
get masked by arithmetic; a literal returned directly reaches the exit code
unreduced. -/
theorem c6_counterexample_exit_code_not_masked :
    generate progBigReturn ctxInt
      = .ok ⟨[⟨.PUSH_INT, some 70000⟩, ⟨.RET, none⟩, ⟨.PUSH_INT, some 0⟩, ⟨.RET, none⟩],
             [⟨"main", 0, [], 0, [], 0⟩], [], 0, [("main", 0)]⟩ ∧
    runMain [⟨.PUSH_INT, some 70000⟩, ⟨.RET, none⟩, ⟨.PUSH_INT, some 0⟩, ⟨.RET, none⟩]
        [⟨"main", 0, 0, 0⟩] [] 10
      = some (.finished 70000, ⟨[], [], 2, [], [], false⟩) ∧
    (70000 : Int) % 65536 = 4464 ∧ (70000 : Int) ≠ 4464 := by
  refine ⟨by rfl, by rfl, by decide, by decide⟩

/-- C6 as amended: the exit code is exactly the value `v` popped by `main`'s
final `RET` (no reduction applied); it coincides with `v mod 2^16` whenever
`0 ≤ v < 2^16` — which holds for every value produced by the VM's masked
arithmetic, but not for a large literal returned directly. A `RET` from
`main` on an empty stack yields exit code 0. -/
theorem c6_amended_exit_code_is_ret_value (code : List Instruction)
    (functions : List FunctionInfo) (strings : List (Int × String)) (s : VMState)
    (v : Int) (σ : List Int) (a : Option Int)
    (hfetch : pyListGet code s.pc = some ⟨.RET, a⟩)
    (hpc : s.pc < (code.length : Int))
    (hstop : s.stopRequested = false)
    (hcs : s.callStack = []) :
    (s.stack = v :: σ →
      vmStep code functions strings s
        = .halt (.finished v) { s with pc := s.pc + 1, stack := σ }) ∧
    (s.stack = [] →
      vmStep code functions strings s = .halt (.finished 0) { s with pc := s.pc + 1 }) ∧
    (0 ≤ v → v < 65536 → v = mask16 v) := by
  refine ⟨?_, ?_, ?_⟩
  · intro hstack
    simp [vmStep, hpc, hstop, hfetch, hstack, hcs]
  · intro hstack
    simp [vmStep, hpc, hstop, hfetch, hstack, hcs]
  · intro h0 h1
    simp [mask16]
    omega

/-- Witness for the amended C6: a `RET` from `main` with 70000 on the stack
finishes with exit code 70000; a valueless `RET` finishes with 0; and 5 is
its own residue mod 2^16. -/
theorem c6_amended_exit_code_is_ret_value_witness :
    (vmStep [⟨.RET, none⟩] [] [] ⟨[70000], [], 0, [], [], false⟩
      = .halt (.finished 70000) ⟨[], [], 1, [], [], false⟩) ∧
    (vmStep [⟨.RET, none⟩] [] [] ⟨[], [], 0, [], [], false⟩
      = .halt (.finished 0) ⟨[], [], 1, [], [], false⟩) ∧
    (5 : Int) = mask16 5 := by
  have h1 := (c6_amended_exit_code_is_ret_value [⟨.RET, none⟩] [] []
    ⟨[70000], [], 0, [], [], false⟩ 70000 [] none (by decide) (by decide) rfl rfl).1 rfl
  have h2 := (c6_amended_exit_code_is_ret_value [⟨.RET, none⟩] [] []
    ⟨[], [], 0, [], [], false⟩ 5 [] none (by decide) (by decide) rfl rfl)
  exact ⟨h1, h2.2.1 rfl, h2.2.2 (by decide) (by decide)⟩

/-- C7 counterexample: a function declared with return type `void` (for
which the specification promises the defensive `PUSH_INT 0`) gets only a
bare `RET`: the epilogue push is emitted solely when the declared return
type is absent or `int`. -/
theorem c7_counterexample_void_gets_no_push :
    emitFunction ⟨"v", [], some "void", []⟩ (buildLayout ⟨"v", [], some "void", []⟩) ctxInt initCG
      = .ok ⟨[⟨.RET, none⟩], [], [], 0, []⟩ ∧
    List.isSuffixOf [⟨.PUSH_INT, some 0⟩, ⟨.RET, none⟩] [(⟨.RET, none⟩ : Instruction)] = false := by
  refine ⟨by rfl, by decide⟩

/-- C7 as amended: the emitted body of a function ends with
`PUSH_INT 0; RET` exactly when the declared return type is absent or `int`;
for any other declared return type (`void`, `str`, `bool`, `ptr`, ...) the
body ends with a bare `RET` and no defensive push. -/
theorem c7_amended_epilogue_depends_on_return_type (fn : Function)
    (layout : FunctionLayout) (ctx : Ctx) (st stB : CGState)
    (hbody : emitStmts layout ctx st fn.body = .ok stB) :
    (fn.returnType = none ∨ fn.returnType = some "int" →
      emitFunction fn layout ctx st
        = .ok { stB with code := stB.code ++ [⟨.PUSH_INT, some 0⟩, ⟨.RET, none⟩] }) ∧
    (¬(fn.returnType = none ∨ fn.returnType = some "int") →
      emitFunction fn layout ctx st
        = .ok { stB with code := stB.code ++ [⟨.RET, none⟩] }) := by
  constructor
  · intro h
    simp [emitFunction, hbody, bind, Except.bind, emit, h]
  · intro h
    simp [emitFunction, hbody, bind, Except.bind, emit, h]

/-- Witness for the amended C7: an `int` function gets `PUSH_INT 0; RET`, a
`str` function gets only `RET`. -/
theorem c7_amended_epilogue_depends_on_return_type_witness :
    (emitFunction ⟨"m", [], some "int", []⟩ ⟨"m", 0, [], 0, [], 0⟩ ctxInt initCG
      = .ok ⟨[⟨.PUSH_INT, some 0⟩, ⟨.RET, none⟩], [], [], 0, []⟩) ∧
    (emitFunction ⟨"s", [], some "str", []⟩ ⟨"s", 0, [], 0, [], 0⟩ ctxInt initCG
      = .ok ⟨[⟨.RET, none⟩], [], [], 0, []⟩) := by
  constructor
  · exact (c7_amended_epilogue_depends_on_return_type ⟨"m", [], some "int", []⟩
      ⟨"m", 0, [], 0, [], 0⟩ ctxInt initCG initCG rfl).1 (Or.inr rfl)
  · exact (c7_amended_epilogue_depends_on_return_type ⟨"s", [], some "str", []⟩
      ⟨"s", 0, [], 0, [], 0⟩ ctxInt initCG initCG rfl).2 (by simp)

/-- C8 counterexample: in `progLeakyCallee`, `main` performs `CALL 0` at
operand-stack depth 0 with `num_params = 0`; the claim demands depth
`0 − 0 + 1 = 1` after the matching `RET`. But `g`'s lowered body leaves its
discarded expression-statement value `1` beneath the return value `5`
(the generator emits no pop for expression statements), so after the `RET`
(step 4, call stack empty again) the stack is `[5, 1]` — depth 2. -/
theorem c8_counterexample_expr_stmt_breaks_discipline :
    generate progLeakyCallee ctxInt
      = .ok ⟨codeLeakyCallee,
             [⟨"g", 0, [], 0, [], 0⟩, ⟨"main", 0, [], 5, [], 0⟩],
             [], 0, [("main", 1), ("g", 0)]⟩ ∧
    vmNexts codeLeakyCallee fnsLeakyCallee [] 1 ⟨[], [], 5, [], [], false⟩
      = some ⟨[], [(6, [])], 0, [], [], false⟩ ∧
    vmNexts codeLeakyCallee fnsLeakyCallee [] 4 ⟨[], [], 5, [], [], false⟩
      = some ⟨[5, 1], [], 6, [], [], false⟩ ∧
    ([5, 1] : List Int).length = 2 ∧ (2 : Nat) ≠ 0 - 0 + 1 := by
  refine ⟨by rfl, by rfl, by rfl, by rfl, by decide⟩

/-- C8 as amended: `CALL` pops exactly `num_params` values and saves the
caller frame, and a `RET` that matches a `CALL` (non-empty call stack,
non-empty operand stack) pops the return value and pushes it back after
restoring the frame, preserving operand-stack depth. Hence after the `RET`
the depth is (caller depth at `CALL`) − num_params + k, where k ≥ 1 is the
number of values the callee's execution left on the stack; the claimed
equality with k = 1 holds only when the callee discards nothing, which the
generator does not guarantee — expression-statement results are left behind
(see the counterexample). -/
theorem c8_amended_call_ret_stack_effect (code : List Instruction)
    (functions : List FunctionInfo) (strings : List (Int × String)) (s : VMState)
    (hstop : s.stopRequested = false) (hpc : s.pc < (code.length : Int)) :
    (∀ fnId fn, pyListGet code s.pc = some ⟨.CALL, some fnId⟩ →
      pyListGet functions fnId = some fn →
      fn.numParams ≤ s.stack.length →
      vmStep code functions strings s
        = .next { s with
            stack := s.stack.drop fn.numParams,
            callStack := (s.pc + 1, s.locals) :: s.callStack,
            locals := setArgs fn.numLocals ((s.stack.take fn.numParams).reverse),
            pc := (fn.entryPc : Int) } ∧
      (s.stack.drop fn.numParams).length = s.stack.length - fn.numParams) ∧
    (∀ a v σ rpc ploc cs, pyListGet code s.pc = some ⟨.RET, a⟩ →
      s.stack = v :: σ → s.callStack = (rpc, ploc) :: cs →
      vmStep code functions strings s
        = .next { s with stack := v :: σ, callStack := cs, locals := ploc, pc := rpc } ∧
      (v :: σ).length = s.stack.length) := by
  constructor
  · intro fnId fn hfetch hfn hlen
    refine ⟨?_, by simp⟩
    simp [vmStep, hpc, hstop, hfetch, hfn, Nat.not_lt.mpr hlen]
  · intro a v σ rpc ploc cs hfetch hstack hcs
    refine ⟨?_, by simp [hstack]⟩
    simp [vmStep, hpc, hstop, hfetch, hstack, hcs]

/-- Witness for the amended C8: a `CALL 0` to a one-parameter function pops
the argument (depth 2 → 1), and the subsequent `RET` preserves depth. -/
theorem c8_amended_call_ret_stack_effect_witness :
    (vmStep [⟨.CALL, some 0⟩, ⟨.RET, none⟩] [⟨"f", 1, 1, 1⟩] []
        ⟨[9, 8], [], 0, [4], [], false⟩
      = .next ⟨[8], [(1, [4])], 1, [9], [], false⟩) ∧
    (vmStep [⟨.CALL, some 0⟩, ⟨.RET, none⟩] [⟨"f", 1, 1, 1⟩] []
        ⟨[7, 8], [(1, [4])], 1, [9], [], false⟩
      = .next ⟨[7, 8], [], 1, [4], [], false⟩) := by
  constructor
  · exact ((c8_amended_call_ret_stack_effect [⟨.CALL, some 0⟩, ⟨.RET, none⟩] [⟨"f", 1, 1, 1⟩] []
      ⟨[9, 8], [], 0, [4], [], false⟩ rfl (by decide)).1 0 ⟨"f", 1, 1, 1⟩
      (by decide) (by decide) (by decide)).1
  · exact ((c8_amended_call_ret_stack_effect [⟨.CALL, some 0⟩, ⟨.RET, none⟩] [⟨"f", 1, 1, 1⟩] []
      ⟨[7, 8], [(1, [4])], 1, [9], [], false⟩ rfl (by decide)).2 none 7 [8] 1 [4] []
      (by decide) rfl rfl).1

theorem patchArg_append (l₁ l₂ : List Instruction) (j : Nat) (a : Int)
    (h : l₁.length ≤ j) :
    patchArg (l₁ ++ l₂) j a = l₁ ++ patchArg l₂ (j - l₁.length) a := by
  induction l₁ generalizing j with
  | nil => simp
  | cons x xs ih =>
    cases j with
    | zero => simp at h
    | succ n =>
      have hx : xs.length ≤ n := by simpa using h
      simp only [List.cons_append, patchArg, List.length_cons, List.append_eq]
      rw [ih n hx]
      have hn : n + 1 - (xs.length + 1) = n - xs.length := by omega
      rw [hn]

theorem patchThree (A Δ : List Instruction) (x y p j q : Instruction) (f e : Int) :
    patchArg (patchArg (patchArg
        (A ++ x :: (Δ ++ [y, p, j, q]))
        A.length f)
        (A.length + (Δ.length + 1)) f)
      (A.length + (Δ.length + 3)) e
    = A ++ { x with arg := some f } :: (Δ ++ [{ y with arg := some f }, p,
        { j with arg := some e }, q]) := by
  rw [patchArg_append A _ A.length f (le_refl _), Nat.sub_self]
  simp only [patchArg]
  rw [show A ++ ({ x with arg := some f } : Instruction) :: (Δ ++ [y, p, j, q])
      = (A ++ { x with arg := some f } :: Δ) ++ [y, p, j, q] from by simp]
  rw [patchArg_append (A ++ { x with arg := some f } :: Δ) _ _ f (by simp)]
  rw [show A.length + (Δ.length + 1) - (A ++ ({ x with arg := some f } : Instruction) :: Δ).length
      = 0 from by simp]
  simp only [patchArg]
  rw [patchArg_append (A ++ { x with arg := some f } :: Δ) _ _ e (by simp)]
  rw [show A.length + (Δ.length + 3) - (A ++ ({ x with arg := some f } : Instruction) :: Δ).length
      = 2 from by simp; omega]
  simp [patchArg]

theorem pyListGet_nat {α : Type} (xs : List α) (n : Nat) :
    pyListGet xs (n : Int) = xs[n]? := by
  by_cases h : n < xs.length
  · simp [pyListGet, pyIndex, h, Nat.cast_lt]
  · simp [pyListGet, pyIndex, h, Nat.cast_lt, List.getElem?_eq_none (Nat.le_of_not_lt h)]

theorem getElem?_append_cons_of {α : Type} (l₁ : List α) (x : α) (l₂ : List α) (n : Nat)
    (h : n = l₁.length) : (l₁ ++ x :: l₂)[n]? = some x := by
  subst h
  rw [List.getElem?_append_right (le_refl _)]
  simp

theorem andCode_length (pre Δ : List Instruction) :
    (andCode pre Δ).length = pre.length + Δ.length + 5 := by
  simp [andCode]
  omega

theorem orCode_length (pre Δ : List Instruction) :
    (orCode pre Δ).length = pre.length + Δ.length + 5 := by
  simp [orCode]
  omega

theorem emitAnd_characterization (layout : FunctionLayout) (ctx : Ctx)
    (st stA stB : CGState) (a b : Expr) (Δ : List Instruction)
    (hA : emitExpr layout ctx st a = .ok stA)
    (hB : emitExpr layout ctx (emit stA ⟨.JZ, some 0⟩) b = .ok stB)
    (hΔ : stB.code = stA.code ++ ⟨.JZ, some 0⟩ :: Δ) :
    emitExpr layout ctx st (.binary a "&&" b)
      = .ok { stB with code := andCode stA.code Δ } := by
  have hB' : emitExpr layout ctx
      { stA with code := stA.code ++ [⟨.JZ, some 0⟩] } b = .ok stB := by
    simpa [emit] using hB
  simp only [emitExpr, hA, hB', bind, Except.bind, emit, if_true, reduceIte]
  rw [hΔ]
  simp only [List.length_append, List.length_cons, List.append_assoc, List.singleton_append,
    List.cons_append, List.nil_append, List.length_nil, Nat.add_zero, Nat.zero_add]
  rw [show stA.code.length + (Δ.length + (1 + 1 + 1) + 1) = stA.code.length + Δ.length + 4
    from by omega]
  rw [show stA.code.length + (Δ.length + (1 + 1 + 1 + 1) + 1) = stA.code.length + Δ.length + 5
    from by omega]
  rw [show stA.code.length + (Δ.length + (1 + 1) + 1) = stA.code.length + (Δ.length + 3)
    from by omega]
  rw [patchThree]
  simp [andCode]

theorem emitOr_characterization (layout : FunctionLayout) (ctx : Ctx)
    (st stA stB : CGState) (a b : Expr) (Δ : List Instruction)
    (hA : emitExpr layout ctx st a = .ok stA)
    (hB : emitExpr layout ctx (emit stA ⟨.JNZ, some 0⟩) b = .ok stB)
    (hΔ : stB.code = stA.code ++ ⟨.JNZ, some 0⟩ :: Δ) :
    emitExpr layout ctx st (.binary a "||" b)
      = .ok { stB with code := orCode stA.code Δ } := by
  have hB' : emitExpr layout ctx
      { stA with code := stA.code ++ [⟨.JNZ, some 0⟩] } b = .ok stB := by
    simpa [emit] using hB
  simp only [emitExpr, hA, hB', bind, Except.bind, emit, if_true, reduceIte]
  rw [hΔ]
  simp only [List.length_append, List.length_cons, List.append_assoc, List.singleton_append,
    List.cons_append, List.nil_append, List.length_nil, Nat.add_zero, Nat.zero_add]
  rw [show stA.code.length + (Δ.length + (1 + 1 + 1) + 1) = stA.code.length + Δ.length + 4
    from by omega]
  rw [show stA.code.length + (Δ.length + (1 + 1 + 1 + 1) + 1) = stA.code.length + Δ.length + 5
    from by omega]
  rw [show stA.code.length + (Δ.length + (1 + 1) + 1) = stA.code.length + (Δ.length + 3)
    from by omega]
  rw [patchThree]
  simp [orCode]

theorem andFalseRun (pre Δ rest : List Instruction) (functions : List FunctionInfo)
    (strings : List (Int × String)) (s : VMState) (σ : List Int)
    (hstop : s.stopRequested = false)
    (hpc : s.pc = (pre.length : Int))
    (hstack : s.stack = 0 :: σ) :
    vmNexts (andCode pre Δ ++ rest) functions strings 1 s
      = some { s with stack := σ, pc := ((pre.length + Δ.length + 4 : Nat) : Int) } ∧
    vmNexts (andCode pre Δ ++ rest) functions strings 2 s
      = some { s with pc := ((pre.length + Δ.length + 5 : Nat) : Int) } := by
  have hlen : (andCode pre Δ ++ rest).length = pre.length + Δ.length + 5 + rest.length := by
    simp [andCode_length]
  have hf0 : pyListGet (andCode pre Δ ++ rest) s.pc
      = some ⟨.JZ, some ((pre.length + Δ.length + 4 : Nat) : Int)⟩ := by
    rw [hpc, pyListGet_nat]
    rw [show andCode pre Δ ++ rest
        = pre ++ (⟨.JZ, some ((pre.length + Δ.length + 4 : Nat) : Int)⟩ :: (Δ ++
          [⟨.JZ, some ((pre.length + Δ.length + 4 : Nat) : Int)⟩, ⟨.PUSH_INT, some 1⟩,
           ⟨.JMP, some ((pre.length + Δ.length + 5 : Nat) : Int)⟩,
           ⟨.PUSH_INT, some 0⟩] ++ rest))
      from by simp [andCode]]
    exact getElem?_append_cons_of _ _ _ _ rfl
  have hs1 : vmStep (andCode pre Δ ++ rest) functions strings s
      = .next { s with stack := σ, pc := ((pre.length + Δ.length + 4 : Nat) : Int) } := by
    simp only [vmStep, hstop, hf0, hstack, hlen]
    rw [if_pos (by rw [hpc]; push_cast; omega)]
    simp
  have hf1 : pyListGet (andCode pre Δ ++ rest) ((pre.length + Δ.length + 4 : Nat) : Int)
      = some ⟨.PUSH_INT, some 0⟩ := by
    rw [pyListGet_nat]
    rw [show andCode pre Δ ++ rest
        = (pre ++ ⟨.JZ, some ((pre.length + Δ.length + 4 : Nat) : Int)⟩ :: Δ ++
          [⟨.JZ, some ((pre.length + Δ.length + 4 : Nat) : Int)⟩, ⟨.PUSH_INT, some 1⟩,
           ⟨.JMP, some ((pre.length + Δ.length + 5 : Nat) : Int)⟩]) ++
          (⟨.PUSH_INT, some 0⟩ :: rest)
      from by simp [andCode]]
    exact getElem?_append_cons_of _ _ _ _ (by simp; omega)
  have hs2 : vmStep (andCode pre Δ ++ rest) functions strings
      { s with stack := σ, pc := ((pre.length + Δ.length + 4 : Nat) : Int) }
      = .next { s with stack := 0 :: σ, pc := ((pre.length + Δ.length + 4 : Nat) : Int) + 1 } := by
    simp only [vmStep, hstop, hf1, hlen]
    rw [if_pos (by push_cast; omega)]
    simp [hf1]
  constructor
  · simp [vmNexts, hs1]
  · simp only [vmNexts, hs1, hs2]
    congr 1
    rw [VMState.mk.injEq]
    refine ⟨by rw [hstack], rfl, by push_cast; ring, rfl, rfl, rfl⟩

theorem andTrueEntersRight (pre Δ rest : List Instruction) (functions : List FunctionInfo)
    (strings : List (Int × String)) (s : VMState) (v : Int) (σ : List Int)
    (hstop : s.stopRequested = false)
    (hpc : s.pc = (pre.length : Int))
    (hstack : s.stack = v :: σ) (hv : v ≠ 0) :
    vmNexts (andCode pre Δ ++ rest) functions strings 1 s
      = some { s with stack := σ, pc := ((pre.length + 1 : Nat) : Int) } := by
  have hlen : (andCode pre Δ ++ rest).length = pre.length + Δ.length + 5 + rest.length := by
    simp [andCode_length]
  have hf0 : pyListGet (andCode pre Δ ++ rest) s.pc
      = some ⟨.JZ, some ((pre.length + Δ.length + 4 : Nat) : Int)⟩ := by
    rw [hpc, pyListGet_nat]
    rw [show andCode pre Δ ++ rest
        = pre ++ (⟨.JZ, some ((pre.length + Δ.length + 4 : Nat) : Int)⟩ :: (Δ ++
          [⟨.JZ, some ((pre.length + Δ.length + 4 : Nat) : Int)⟩, ⟨.PUSH_INT, some 1⟩,
           ⟨.JMP, some ((pre.length + Δ.length + 5 : Nat) : Int)⟩,
           ⟨.PUSH_INT, some 0⟩] ++ rest))
      from by simp [andCode]]
    exact getElem?_append_cons_of _ _ _ _ rfl
  have hs1 : vmStep (andCode pre Δ ++ rest) functions strings s
      = .next { s with stack := σ, pc := s.pc + 1 } := by
    simp only [vmStep, hstop, hf0, hstack, hlen]
    rw [if_pos (by rw [hpc]; push_cast; omega)]
    simp [hv]
  simp only [vmNexts, hs1]
  congr 1
  rw [VMState.mk.injEq]
  refine ⟨rfl, rfl, by rw [hpc]; push_cast; ring, rfl, rfl, rfl⟩

theorem andRightDecides (pre Δ rest : List Instruction) (functions : List FunctionInfo)
    (strings : List (Int × String)) (s : VMState) (w : Int) (σ : List Int)
    (hstop : s.stopRequested = false)
    (hpc : s.pc = ((pre.length + 1 + Δ.length : Nat) : Int))
    (hstack : s.stack = w :: σ) :
    ∃ n, n ≤ 3 ∧ vmNexts (andCode pre Δ ++ rest) functions strings n s
      = some { s with stack := (if w = 0 then 0 else 1) :: σ,
                      pc := ((pre.length + Δ.length + 5 : Nat) : Int) } := by
  have hlen : (andCode pre Δ ++ rest).length = pre.length + Δ.length + 5 + rest.length := by
    simp [andCode_length]
  have hsplit : andCode pre Δ ++ rest
      = (pre ++ ⟨.JZ, some ((pre.length + Δ.length + 4 : Nat) : Int)⟩ :: Δ) ++
        (⟨.JZ, some ((pre.length + Δ.length + 4 : Nat) : Int)⟩ :: ⟨.PUSH_INT, some 1⟩ ::
         ⟨.JMP, some ((pre.length + Δ.length + 5 : Nat) : Int)⟩ ::
         ⟨.PUSH_INT, some 0⟩ :: rest) := by
    simp [andCode]
  have hf0 : pyListGet (andCode pre Δ ++ rest) s.pc
      = some ⟨.JZ, some ((pre.length + Δ.length + 4 : Nat) : Int)⟩ := by
    rw [hpc, pyListGet_nat, hsplit]
    exact getElem?_append_cons_of _ _ _ _ (by simp; omega)
  by_cases hw : w = 0
  · -- right operand false: JZ jumps to the push of 0
    refine ⟨2, by omega, ?_⟩
    have hs1 : vmStep (andCode pre Δ ++ rest) functions strings s
        = .next { s with stack := σ, pc := ((pre.length + Δ.length + 4 : Nat) : Int) } := by
      simp only [vmStep, hstop, hf0, hstack, hlen]
      rw [if_pos (by rw [hpc]; push_cast; omega)]
      simp [hw]
    have hf1 : pyListGet (andCode pre Δ ++ rest) ((pre.length + Δ.length + 4 : Nat) : Int)
        = some ⟨.PUSH_INT, some 0⟩ := by
      rw [pyListGet_nat]
      rw [show andCode pre Δ ++ rest
          = (pre ++ ⟨.JZ, some ((pre.length + Δ.length + 4 : Nat) : Int)⟩ :: Δ ++
            [⟨.JZ, some ((pre.length + Δ.length + 4 : Nat) : Int)⟩, ⟨.PUSH_INT, some 1⟩,
             ⟨.JMP, some ((pre.length + Δ.length + 5 : Nat) : Int)⟩]) ++
            (⟨.PUSH_INT, some 0⟩ :: rest)
        from by simp [andCode]]
      exact getElem?_append_cons_of _ _ _ _ (by simp; omega)
    have hs2 : vmStep (andCode pre Δ ++ rest) functions strings
        { s with stack := σ, pc := ((pre.length + Δ.length + 4 : Nat) : Int) }
        = .next { s with stack := 0 :: σ,
                         pc := ((pre.length + Δ.length + 4 : Nat) : Int) + 1 } := by
      simp only [vmStep, hstop, hf1, hlen]
      rw [if_pos (by push_cast; omega)]
      simp [hf1]
    simp only [vmNexts, hs1, hs2]
    congr 1
    rw [VMState.mk.injEq]
    refine ⟨by simp [hw], rfl, by push_cast; ring, rfl, rfl, rfl⟩
  · -- right operand true: fall through, push 1, jump to end
    refine ⟨3, by omega, ?_⟩
    have hs1 : vmStep (andCode pre Δ ++ rest) functions strings s
        = .next { s with stack := σ, pc := s.pc + 1 } := by
      simp only [vmStep, hstop, hf0, hstack, hlen]
      rw [if_pos (by rw [hpc]; push_cast; omega)]
      simp [hw]
    have hf1 : pyListGet (andCode pre Δ ++ rest) (s.pc + 1)
        = some ⟨.PUSH_INT, some 1⟩ := by
      rw [hpc, show (((pre.length + 1 + Δ.length : Nat) : Int) + 1)
          = ((pre.length + 1 + Δ.length + 1 : Nat) : Int) from by push_cast; ring]
      rw [pyListGet_nat]
      rw [show andCode pre Δ ++ rest
          = (pre ++ ⟨.JZ, some ((pre.length + Δ.length + 4 : Nat) : Int)⟩ :: Δ ++
            [⟨.JZ, some ((pre.length + Δ.length + 4 : Nat) : Int)⟩]) ++
            (⟨.PUSH_INT, some 1⟩ ::
             ⟨.JMP, some ((pre.length + Δ.length + 5 : Nat) : Int)⟩ ::
             ⟨.PUSH_INT, some 0⟩ :: rest)
        from by simp [andCode]]
      exact getElem?_append_cons_of _ _ _ _ (by simp; omega)
    have hs2 : vmStep (andCode pre Δ ++ rest) functions strings
        { s with stack := σ, pc := s.pc + 1 }
        = .next { s with stack := 1 :: σ, pc := s.pc + 1 + 1 } := by
      simp only [vmStep, hstop, hf1, hlen]
      rw [if_pos (by rw [hpc]; push_cast; omega)]
      simp [hf1]
    have hf2 : pyListGet (andCode pre Δ ++ rest) (s.pc + 1 + 1)
        = some ⟨.JMP, some ((pre.length + Δ.length + 5 : Nat) : Int)⟩ := by
      rw [hpc, show (((pre.length + 1 + Δ.length : Nat) : Int) + 1 + 1)
          = ((pre.length + 1 + Δ.length + 2 : Nat) : Int) from by push_cast; ring]
      rw [pyListGet_nat]
      rw [show andCode pre Δ ++ rest
          = (pre ++ ⟨.JZ, some ((pre.length + Δ.length + 4 : Nat) : Int)⟩ :: Δ ++
            [⟨.JZ, some ((pre.length + Δ.length + 4 : Nat) : Int)⟩, ⟨.PUSH_INT, some 1⟩]) ++
            (⟨.JMP, some ((pre.length + Δ.length + 5 : Nat) : Int)⟩ ::
             ⟨.PUSH_INT, some 0⟩ :: rest)
        from by simp [andCode]]
      exact getElem?_append_cons_of _ _ _ _ (by simp; omega)
    have hs3 : vmStep (andCode pre Δ ++ rest) functions strings
        { s with stack := 1 :: σ, pc := s.pc + 1 + 1 }
        = .next { s with stack := 1 :: σ,
                         pc := ((pre.length + Δ.length + 5 : Nat) : Int) } := by
      simp only [vmStep, hstop, hf2, hlen]
      rw [if_pos (by rw [hpc]; push_cast; omega)]
      simp [hf2]
    simp only [vmNexts, hs1, hs2, hs3]
    congr 1
    rw [VMState.mk.injEq]
    refine ⟨by simp [hw], rfl, rfl, rfl, rfl, rfl⟩

theorem orTrueRun (pre Δ rest : List Instruction) (functions : List FunctionInfo)
    (strings : List (Int × String)) (s : VMState) (v : Int) (σ : List Int)
    (hstop : s.stopRequested = false)
    (hpc : s.pc = (pre.length : Nat))
    (hstack : s.stack = v :: σ) (hv : v ≠ 0) :
    vmNexts (orCode pre Δ ++ rest) functions strings 1 s
      = some { s with stack := σ, pc := ((pre.length + Δ.length + 4 : Nat) : Int) } ∧
    vmNexts (orCode pre Δ ++ rest) functions strings 2 s
      = some { s with stack := 1 :: σ, pc := ((pre.length + Δ.length + 5 : Nat) : Int) } := by
  have hlen : (orCode pre Δ ++ rest).length = pre.length + Δ.length + 5 + rest.length := by
    simp [orCode_length]
  have hf0 : pyListGet (orCode pre Δ ++ rest) s.pc
      = some ⟨.JNZ, some ((pre.length + Δ.length + 4 : Nat) : Int)⟩ := by
    rw [hpc, pyListGet_nat]
    rw [show orCode pre Δ ++ rest
        = pre ++ (⟨.JNZ, some ((pre.length + Δ.length + 4 : Nat) : Int)⟩ :: (Δ ++
          [⟨.JNZ, some ((pre.length + Δ.length + 4 : Nat) : Int)⟩, ⟨.PUSH_INT, some 0⟩,
           ⟨.JMP, some ((pre.length + Δ.length + 5 : Nat) : Int)⟩,
           ⟨.PUSH_INT, some 1⟩] ++ rest))
      from by simp [orCode]]
    exact getElem?_append_cons_of _ _ _ _ rfl
  have hs1 : vmStep (orCode pre Δ ++ rest) functions strings s
      = .next { s with stack := σ, pc := ((pre.length + Δ.length + 4 : Nat) : Int) } := by
    simp only [vmStep, hstop, hf0, hstack, hlen]
    rw [if_pos (by rw [hpc]; push_cast; omega)]
    simp [hv]
  have hf1 : pyListGet (orCode pre Δ ++ rest) ((pre.length + Δ.length + 4 : Nat) : Int)
      = some ⟨.PUSH_INT, some 1⟩ := by
    rw [pyListGet_nat]
    rw [show orCode pre Δ ++ rest
        = (pre ++ ⟨.JNZ, some ((pre.length + Δ.length + 4 : Nat) : Int)⟩ :: Δ ++
          [⟨.JNZ, some ((pre.length + Δ.length + 4 : Nat) : Int)⟩, ⟨.PUSH_INT, some 0⟩,
           ⟨.JMP, some ((pre.length + Δ.length + 5 : Nat) : Int)⟩]) ++
          (⟨.PUSH_INT, some 1⟩ :: rest)
      from by simp [orCode]]
    exact getElem?_append_cons_of _ _ _ _ (by simp; omega)
  have hs2 : vmStep (orCode pre Δ ++ rest) functions strings
      { s with stack := σ, pc := ((pre.length + Δ.length + 4 : Nat) : Int) }
      = .next { s with stack := 1 :: σ,
                       pc := ((pre.length + Δ.length + 4 : Nat) : Int) + 1 } := by
    simp only [vmStep, hstop, hf1, hlen]
    rw [if_pos (by push_cast; omega)]
    simp [hf1]
  refine ⟨by simp [vmNexts, hs1], ?_⟩
  simp only [vmNexts, hs1, hs2]
  rw [show ((pre.length + Δ.length + 4 : Nat) : Int) + 1
      = ((pre.length + Δ.length + 5 : Nat) : Int) from by push_cast; ring]

theorem orFalseEntersRight (pre Δ rest : List Instruction) (functions : List FunctionInfo)
    (strings : List (Int × String)) (s : VMState) (σ : List Int)
    (hstop : s.stopRequested = false)
    (hpc : s.pc = (pre.length : Nat))
    (hstack : s.stack = 0 :: σ) :
    vmNexts (orCode pre Δ ++ rest) functions strings 1 s
      = some { s with stack := σ, pc := ((pre.length + 1 : Nat) : Int) } := by
  have hlen : (orCode pre Δ ++ rest).length = pre.length + Δ.length + 5 + rest.length := by
    simp [orCode_length]
  have hf0 : pyListGet (orCode pre Δ ++ rest) s.pc
      = some ⟨.JNZ, some ((pre.length + Δ.length + 4 : Nat) : Int)⟩ := by
    rw [hpc, pyListGet_nat]
    rw [show orCode pre Δ ++ rest
        = pre ++ (⟨.JNZ, some ((pre.length + Δ.length + 4 : Nat) : Int)⟩ :: (Δ ++
          [⟨.JNZ, some ((pre.length + Δ.length + 4 : Nat) : Int)⟩, ⟨.PUSH_INT, some 0⟩,
           ⟨.JMP, some ((pre.length + Δ.length + 5 : Nat) : Int)⟩,
           ⟨.PUSH_INT, some 1⟩] ++ rest))
      from by simp [orCode]]
    exact getElem?_append_cons_of _ _ _ _ rfl
  have hs1 : vmStep (orCode pre Δ ++ rest) functions strings s
      = .next { s with stack := σ, pc := s.pc + 1 } := by
    simp only [vmStep, hstop, hf0, hstack, hlen]
    rw [if_pos (by rw [hpc]; push_cast; omega)]
    simp
  simp only [vmNexts, hs1]
  congr 1
  rw [VMState.mk.injEq]
  refine ⟨rfl, rfl, by rw [hpc]; push_cast; ring, rfl, rfl, rfl⟩

theorem orRightDecides (pre Δ rest : List Instruction) (functions : List FunctionInfo)
    (strings : List (Int × String)) (s : VMState) (w : Int) (σ : List Int)
    (hstop : s.stopRequested = false)
    (hpc : s.pc = ((pre.length + 1 + Δ.length : Nat) : Int))
    (hstack : s.stack = w :: σ) :
    ∃ n, n ≤ 3 ∧ vmNexts (orCode pre Δ ++ rest) functions strings n s
      = some { s with stack := (if w = 0 then 0 else 1) :: σ,
                      pc := ((pre.length + Δ.length + 5 : Nat) : Int) } := by
  have hlen : (orCode pre Δ ++ rest).length = pre.length + Δ.length + 5 + rest.length := by
    simp [orCode_length]
  have hf0 : pyListGet (orCode pre Δ ++ rest) s.pc
      = some ⟨.JNZ, some ((pre.length + Δ.length + 4 : Nat) : Int)⟩ := by
    rw [hpc, pyListGet_nat]
    rw [show orCode pre Δ ++ rest
        = (pre ++ ⟨.JNZ, some ((pre.length + Δ.length + 4 : Nat) : Int)⟩ :: Δ) ++
          (⟨.JNZ, some ((pre.length + Δ.length + 4 : Nat) : Int)⟩ :: ⟨.PUSH_INT, some 0⟩ ::
           ⟨.JMP, some ((pre.length + Δ.length + 5 : Nat) : Int)⟩ ::
           ⟨.PUSH_INT, some 1⟩ :: rest)
      from by simp [orCode]]
    exact getElem?_append_cons_of _ _ _ _ (by simp; omega)
  by_cases hw : w = 0
  · -- right operand false: fall through, push 0, jump to end
    refine ⟨3, by omega, ?_⟩
    have hs1 : vmStep (orCode pre Δ ++ rest) functions strings s
        = .next { s with stack := σ, pc := s.pc + 1 } := by
      simp only [vmStep, hstop, hf0, hstack, hlen]
      rw [if_pos (by rw [hpc]; push_cast; omega)]
      simp [hw]
    have hf1 : pyListGet (orCode pre Δ ++ rest) (s.pc + 1)
        = some ⟨.PUSH_INT, some 0⟩ := by
      rw [hpc, show (((pre.length + 1 + Δ.length : Nat) : Int) + 1)
          = ((pre.length + 1 + Δ.length + 1 : Nat) : Int) from by push_cast; ring]
      rw [pyListGet_nat]
      rw [show orCode pre Δ ++ rest
          = (pre ++ ⟨.JNZ, some ((pre.length + Δ.length + 4 : Nat) : Int)⟩ :: Δ ++
            [⟨.JNZ, some ((pre.length + Δ.length + 4 : Nat) : Int)⟩]) ++
            (⟨.PUSH_INT, some 0⟩ ::
             ⟨.JMP, some ((pre.length + Δ.length + 5 : Nat) : Int)⟩ ::
             ⟨.PUSH_INT, some 1⟩ :: rest)
        from by simp [orCode]]
      exact getElem?_append_cons_of _ _ _ _ (by simp; omega)
    have hs2 : vmStep (orCode pre Δ ++ rest) functions strings
        { s with stack := σ, pc := s.pc + 1 }
        = .next { s with stack := 0 :: σ, pc := s.pc + 1 + 1 } := by
      simp only [vmStep, hstop, hf1, hlen]
      rw [if_pos (by rw [hpc]; push_cast; omega)]
      simp [hf1]
    have hf2 : pyListGet (orCode pre Δ ++ rest) (s.pc + 1 + 1)
        = some ⟨.JMP, some ((pre.length + Δ.length + 5 : Nat) : Int)⟩ := by
      rw [hpc, show (((pre.length + 1 + Δ.length : Nat) : Int) + 1 + 1)
          = ((pre.length + 1 + Δ.length + 2 : Nat) : Int) from by push_cast; ring]
      rw [pyListGet_nat]
      rw [show orCode pre Δ ++ rest
          = (pre ++ ⟨.JNZ, some ((pre.length + Δ.length + 4 : Nat) : Int)⟩ :: Δ ++
            [⟨.JNZ, some ((pre.length + Δ.length + 4 : Nat) : Int)⟩, ⟨.PUSH_INT, some 0⟩]) ++
            (⟨.JMP, some ((pre.length + Δ.length + 5 : Nat) : Int)⟩ ::
             ⟨.PUSH_INT, some 1⟩ :: rest)
        from by simp [orCode]]
      exact getElem?_append_cons_of _ _ _ _ (by simp; omega)
    have hs3 : vmStep (orCode pre Δ ++ rest) functions strings
        { s with stack := 0 :: σ, pc := s.pc + 1 + 1 }
        = .next { s with stack := 0 :: σ,
                         pc := ((pre.length + Δ.length + 5 : Nat) : Int) } := by
      simp only [vmStep, hstop, hf2, hlen]
      rw [if_pos (by rw [hpc]; push_cast; omega)]
      simp [hf2]
    simp only [vmNexts, hs1, hs2, hs3]
    congr 1
    rw [VMState.mk.injEq]
    refine ⟨by simp [hw], rfl, rfl, rfl, rfl, rfl⟩
  · -- right operand true: JNZ jumps to the push of 1
    refine ⟨2, by omega, ?_⟩
    have hs1 : vmStep (orCode pre Δ ++ rest) functions strings s
        = .next { s with stack := σ, pc := ((pre.length + Δ.length + 4 : Nat) : Int) } := by
      simp only [vmStep, hstop, hf0, hstack, hlen]
      rw [if_pos (by rw [hpc]; push_cast; omega)]
      simp [hw]
    have hf1 : pyListGet (orCode pre Δ ++ rest) ((pre.length + Δ.length + 4 : Nat) : Int)
        = some ⟨.PUSH_INT, some 1⟩ := by
      rw [pyListGet_nat]
      rw [show orCode pre Δ ++ rest
          = (pre ++ ⟨.JNZ, some ((pre.length + Δ.length + 4 : Nat) : Int)⟩ :: Δ ++
            [⟨.JNZ, some ((pre.length + Δ.length + 4 : Nat) : Int)⟩, ⟨.PUSH_INT, some 0⟩,
             ⟨.JMP, some ((pre.length + Δ.length + 5 : Nat) : Int)⟩]) ++
            (⟨.PUSH_INT, some 1⟩ :: rest)
        from by simp [orCode]]
      exact getElem?_append_cons_of _ _ _ _ (by simp; omega)
    have hs2 : vmStep (orCode pre Δ ++ rest) functions strings
        { s with stack := σ, pc := ((pre.length + Δ.length + 4 : Nat) : Int) }
        = .next { s with stack := 1 :: σ,
                         pc := ((pre.length + Δ.length + 4 : Nat) : Int) + 1 } := by
      simp only [vmStep, hstop, hf1, hlen]
      rw [if_pos (by push_cast; omega)]
      simp [hf1]
    simp only [vmNexts, hs1, hs2]
    congr 1
    rw [VMState.mk.injEq]
    refine ⟨by simp [hw], rfl, by push_cast; ring, rfl, rfl, rfl⟩

theorem c3_short_circuit_eval :
    (∀ (layout : FunctionLayout) (ctx : Ctx) (st stA stB : CGState) (a b : Expr)
       (Δ : List Instruction),
      emitExpr layout ctx st a = .ok stA →
      emitExpr layout ctx (emit stA ⟨.JZ, some 0⟩) b = .ok stB →
      stB.code = stA.code ++ ⟨.JZ, some 0⟩ :: Δ →
      emitExpr layout ctx st (.binary a "&&" b) = .ok { stB with code := andCode stA.code Δ }) ∧
    (∀ (pre Δ rest : List Instruction) (functions : List FunctionInfo)
       (strings : List (Int × String)) (s : VMState) (σ : List Int),
      s.stopRequested = false → s.pc = (pre.length : Int) → s.stack = 0 :: σ →
      vmNexts (andCode pre Δ ++ rest) functions strings 1 s
        = some { s with stack := σ, pc := ((pre.length + Δ.length + 4 : Nat) : Int) } ∧
      vmNexts (andCode pre Δ ++ rest) functions strings 2 s
        = some { s with pc := ((pre.length + Δ.length + 5 : Nat) : Int) }) ∧
    (∀ (pre Δ rest : List Instruction) (functions : List FunctionInfo)
       (strings : List (Int × String)) (s : VMState) (v : Int) (σ : List Int),
      s.stopRequested = false → s.pc = (pre.length : Int) → s.stack = v :: σ → v ≠ 0 →
      vmNexts (andCode pre Δ ++ rest) functions strings 1 s
        = some { s with stack := σ, pc := ((pre.length + 1 : Nat) : Int) }) ∧
    (∀ (pre Δ rest : List Instruction) (functions : List FunctionInfo)
       (strings : List (Int × String)) (s : VMState) (w : Int) (σ : List Int),
      s.stopRequested = false → s.pc = ((pre.length + 1 + Δ.length : Nat) : Int) →
      s.stack = w :: σ →
      ∃ n, n ≤ 3 ∧ vmNexts (andCode pre Δ ++ rest) functions strings n s
        = some { s with stack := (if w = 0 then 0 else 1) :: σ,
                        pc := ((pre.length + Δ.length + 5 : Nat) : Int) }) ∧
    (∀ (layout : FunctionLayout) (ctx : Ctx) (st stA stB : CGState) (a b : Expr)
       (Δ : List Instruction),
      emitExpr layout ctx st a = .ok stA →
      emitExpr layout ctx (emit stA ⟨.JNZ, some 0⟩) b = .ok stB →
      stB.code = stA.code ++ ⟨.JNZ, some 0⟩ :: Δ →
      emitExpr layout ctx st (.binary a "||" b) = .ok { stB with code := orCode stA.code Δ }) ∧
    (∀ (pre Δ rest : List Instruction) (functions : List FunctionInfo)
       (strings : List (Int × String)) (s : VMState) (v : Int) (σ : List Int),
      s.stopRequested = false → s.pc = (pre.length : Int) → s.stack = v :: σ → v ≠ 0 →
      vmNexts (orCode pre Δ ++ rest) functions strings 1 s
        = some { s with stack := σ, pc := ((pre.length + Δ.length + 4 : Nat) : Int) } ∧
      vmNexts (orCode pre Δ ++ rest) functions strings 2 s
        = some { s with stack := 1 :: σ, pc := ((pre.length + Δ.length + 5 : Nat) : Int) }) ∧
    (∀ (pre Δ rest : List Instruction) (functions : List FunctionInfo)
       (strings : List (Int × String)) (s : VMState) (σ : List Int),
      s.stopRequested = false → s.pc = (pre.length : Int) → s.stack = 0 :: σ →
      vmNexts (orCode pre Δ ++ rest) functions strings 1 s
        = some { s with stack := σ, pc := ((pre.length + 1 : Nat) : Int) }) ∧
    (∀ (pre Δ rest : List Instruction) (functions : List FunctionInfo)
       (strings : List (Int × String)) (s : VMState) (w : Int) (σ : List Int),
      s.stopRequested = false → s.pc = ((pre.length + 1 + Δ.length : Nat) : Int) →
      s.stack = w :: σ →
      ∃ n, n ≤ 3 ∧ vmNexts (orCode pre Δ ++ rest) functions strings n s
        = some { s with stack := (if w = 0 then 0 else 1) :: σ,
                        pc := ((pre.length + Δ.length + 5 : Nat) : Int) }) := by
  refine ⟨?_, ?_, ?_, ?_, ?_, ?_, ?_, ?_⟩
  · intro layout ctx st stA stB a b Δ hA hB hΔ
    exact emitAnd_characterization layout ctx st stA stB a b Δ hA hB hΔ
  · intro pre Δ rest functions strings s σ h1 h2 h3
    exact andFalseRun pre Δ rest functions strings s σ h1 h2 h3
  · intro pre Δ rest functions strings s v σ h1 h2 h3 h4
    exact andTrueEntersRight pre Δ rest functions strings s v σ h1 h2 h3 h4
  · intro pre Δ rest functions strings s w σ h1 h2 h3
    exact andRightDecides pre Δ rest functions strings s w σ h1 h2 h3
  · intro layout ctx st stA stB a b Δ hA hB hΔ
    exact emitOr_characterization layout ctx st stA stB a b Δ hA hB hΔ
  · intro pre Δ rest functions strings s v σ h1 h2 h3 h4
    exact orTrueRun pre Δ rest functions strings s v σ h1 h2 h3 h4
  · intro pre Δ rest functions strings s σ h1 h2 h3
    exact orFalseEntersRight pre Δ rest functions strings s σ h1 h2 h3
  · intro pre Δ rest functions strings s w σ h1 h2 h3
    exact orRightDecides pre Δ rest functions strings s w σ h1 h2 h3

theorem c3_short_circuit_eval_witness :
    emitExpr ⟨"m", 0, [], 0, [], 0⟩ ctxInt initCG (.binary (.litBool false) "&&" (.litBool true))
      = .ok ⟨andCode [⟨.PUSH_INT, some 0⟩] [⟨.PUSH_INT, some 1⟩], [], [], 0, []⟩ ∧
    vmNexts (andCode [⟨.PUSH_INT, some 0⟩] [⟨.PUSH_INT, some 1⟩] ++ []) [] [] 2
        ⟨[0], [], 1, [], [], false⟩
      = some ⟨[0], [], 7, [], [], false⟩ := by
  constructor
  · exact c3_short_circuit_eval.1 ⟨"m", 0, [], 0, [], 0⟩ ctxInt initCG
      ⟨[⟨.PUSH_INT, some 0⟩], [], [], 0, []⟩
      ⟨[⟨.PUSH_INT, some 0⟩, ⟨.JZ, some 0⟩, ⟨.PUSH_INT, some 1⟩], [], [], 0, []⟩
      (.litBool false) (.litBool true) [⟨.PUSH_INT, some 1⟩] rfl rfl rfl
  · exact ((c3_short_circuit_eval.2.1 [⟨.PUSH_INT, some 0⟩] [⟨.PUSH_INT, some 1⟩] [] [] []
      ⟨[0], [], 1, [], [], false⟩ [] rfl rfl rfl).2)

/-! ## Claim C1: user-call lowering and CALL-operand validity -/

theorem bindOk {α β : Type} {m : Except String α} {f : α → Except String β} {b : β}
    (h : (m >>= f) = .ok b) : ∃ a, m = .ok a ∧ f a = .ok b := by
  cases m with
  | ok a => exact ⟨a, rfl, by simpa [bind, Except.bind] using h⟩
  | error e => simp [bind, Except.bind] at h

theorem lookup_mem {α β : Type} [BEq α] [LawfulBEq α] {l : List (α × β)} {a : α} {b : β}
    (h : l.lookup a = some b) : (a, b) ∈ l := by
  induction l with
  | nil => simp [List.lookup] at h
  | cons p rest ih =>
    rw [List.lookup] at h
    by_cases hab : a == p.1
    · simp [hab] at h
      simp [← h]
      left
      have := eq_of_beq hab
      subst this
      rfl
    · simp [hab] at h
      exact List.mem_cons_of_mem _ (ih h)

theorem patchArg_length (c : List Instruction) (j : Nat) (a : Int) :
    (patchArg c j a).length = c.length := by
  induction c generalizing j with
  | nil => rfl
  | cons x xs ih =>
    cases j with
    | zero => simp [patchArg]
    | succ n => simp [patchArg, ih]

theorem instrAt_patchArg_op (c : List Instruction) (j : Nat) (a : Int) (i : Nat) :
    (instrAt (patchArg c j a) i).op = (instrAt c i).op := by
  induction c generalizing i j with
  | nil => rfl
  | cons x xs ih =>
    cases j with
    | zero =>
      cases i with
      | zero => simp [patchArg, instrAt]
      | succ m => simp [patchArg, instrAt]
    | succ n =>
      cases i with
      | zero => simp [patchArg, instrAt]
      | succ m =>
        simp only [patchArg, instrAt, List.getD, List.getElem?_cons_succ]
        exact ih n m

theorem instrAt_patchArg_ne (c : List Instruction) (j : Nat) (a : Int) (i : Nat)
    (h : i ≠ j) : instrAt (patchArg c j a) i = instrAt c i := by
  induction c generalizing i j with
  | nil => rfl
  | cons x xs ih =>
    cases j with
    | zero =>
      cases i with
      | zero => exact absurd rfl h
      | succ m => simp [patchArg, instrAt]
    | succ n =>
      cases i with
      | zero => simp [patchArg, instrAt]
      | succ m =>
        simp only [patchArg, instrAt, List.getD, List.getElem?_cons_succ]
        exact ih n m (by omega)

theorem instrAt_append_left (c d : List Instruction) (i : Nat) (h : i < c.length) :
    instrAt (c ++ d) i = instrAt c i := by
  simp [instrAt, List.getElem?_append_left h]

theorem instrAt_snoc_len (c : List Instruction) (x : Instruction) :
    instrAt (c ++ [x]) c.length = x := by
  simp [instrAt, List.getElem?_append_right (le_refl c.length)]

theorem instrAt_ge (c : List Instruction) (i : Nat) (h : c.length ≤ i) :
    instrAt c i = ⟨.RET, none⟩ := by
  simp [instrAt, List.getElem?_eq_none h]

theorem funcIdxOk_transport {s1 s2 : CGState}
    (hf : s2.functions = s1.functions) (hn : s2.funcNameToIndex = s1.funcNameToIndex)
    (h : FuncIdxOk s1) : FuncIdxOk s2 := by
  intro p hp
  rw [hn] at hp
  rw [hf]
  exact h p hp

theorem emitsOk_refl (st : CGState) : EmitsOk st st :=
  ⟨⟨[], by simp⟩, rfl, rfl, fun _ h => h⟩

theorem emitsOk_trans {s1 s2 s3 : CGState} (h12 : EmitsOk s1 s2) (h23 : EmitsOk s2 s3) :
    EmitsOk s1 s3 := by
  obtain ⟨⟨d1, hc1⟩, hf1, hn1, hv1⟩ := h12
  obtain ⟨⟨d2, hc2⟩, hf2, hn2, hv2⟩ := h23
  refine ⟨⟨d1 ++ d2, by rw [hc2, hc1, List.append_assoc]⟩, by rw [hf2, hf1],
    by rw [hn2, hn1], ?_⟩
  intro hidx hcalls
  exact hv2 (funcIdxOk_transport hf1 hn1 hidx) (hv1 hidx hcalls)

theorem emitsOk_emit (st : CGState) (ins : Instruction) (h : ins.op ≠ .CALL) :
    EmitsOk st (emit st ins) := by
  refine ⟨⟨[ins], rfl⟩, rfl, rfl, ?_⟩
  intro _ hcalls i hcall
  by_cases hi : i < st.code.length
  · rw [emit] at hcall ⊢
    simp only at hcall ⊢
    rw [instrAt_append_left _ _ _ hi] at hcall ⊢
    exact hcalls i hcall
  · by_cases hieq : i = st.code.length
    · subst hieq
      rw [emit] at hcall
      simp only at hcall
      rw [instrAt_snoc_len] at hcall
      exact absurd hcall h
    · rw [emit] at hcall
      simp only at hcall
      rw [instrAt_ge _ _ (by simp; omega)] at hcall
      cases hcall

theorem emitsOk_emit_call (st : CGState) (k : Nat)
    (hk : ∃ name, st.funcNameToIndex.lookup name = some k) :
    EmitsOk st (emit st ⟨.CALL, some (k : Int)⟩) := by
  refine ⟨⟨[⟨.CALL, some (k : Int)⟩], rfl⟩, rfl, rfl, ?_⟩
  intro hidx hcalls i hcall
  by_cases hi : i < st.code.length
  · rw [emit] at hcall ⊢
    simp only at hcall ⊢
    rw [instrAt_append_left _ _ _ hi] at hcall ⊢
    exact hcalls i hcall
  · by_cases hieq : i = st.code.length
    · subst hieq
      rw [emit]
      simp only
      rw [instrAt_snoc_len]
      obtain ⟨name, hname⟩ := hk
      exact ⟨k, rfl, hidx _ (lookup_mem hname)⟩
    · rw [emit] at hcall
      simp only at hcall
      rw [instrAt_ge _ _ (by simp; omega)] at hcall
      cases hcall

theorem emitsOk_addString (st : CGState) (v : String) :
    EmitsOk st (addString st v).2 := by
  refine ⟨⟨[], by simp [addString]⟩, rfl, rfl, ?_⟩
  intro _ hcalls i hcall
  simp only [addString] at hcall ⊢
  exact hcalls i hcall

theorem emitsOk_patch {st st' : CGState} (h : EmitsOk st st') (j : Nat) (a : Int)
    (hj : st.code.length ≤ j) (hop : (instrAt st'.code j).op ≠ .CALL) :
    EmitsOk st { st' with code := patchArg st'.code j a } := by
  obtain ⟨⟨d, hc⟩, hf, hn, hv⟩ := h
  refine ⟨⟨patchArg d (j - st.code.length) a, by rw [hc, patchArg_append _ _ _ _ hj]⟩,
    hf, hn, ?_⟩
  intro hidx hcalls i hcall
  simp only at hcall ⊢
  rw [instrAt_patchArg_op] at hcall
  by_cases hij : i = j
  · subst hij
    exact absurd hcall hop
  · rw [instrAt_patchArg_ne _ _ _ _ hij]
    exact hv hidx hcalls i hcall



theorem instrAt_append_cons_of (l₁ : List Instruction) (x : Instruction)
    (l₂ : List Instruction) (n : Nat) (h : n = l₁.length) :
    instrAt (l₁ ++ x :: l₂) n = x := by
  subst h
  simp [instrAt, List.getElem?_append_right (le_refl _)]

mutual

theorem emitExpr_emitsOk (layout : FunctionLayout) (ctx : Ctx) (st : CGState) (e : Expr)
    (st' : CGState) (h : emitExpr layout ctx st e = .ok st') : EmitsOk st st' := by
  cases e with
  | litBool b =>
    simp only [emitExpr] at h
    injection h with h
    subst h
    exact emitsOk_emit _ _ (by simp)
  | litInt n =>
    simp only [emitExpr] at h
    injection h with h
    subst h
    exact emitsOk_emit _ _ (by simp)
  | litStr v =>
    simp only [emitExpr, addString] at h
    injection h with h
    subst h
    exact emitsOk_trans (emitsOk_addString st v) (emitsOk_emit _ _ (by simp))
  | litNone =>
    simp only [emitExpr] at h
    injection h with h
    subst h
    exact emitsOk_refl st
  | ident name =>
    simp only [emitExpr] at h
    split at h
    · injection h with h
      subst h
      exact emitsOk_emit _ _ (by simp)
    · injection h with h
      subst h
      exact emitsOk_emit _ _ (by simp)
  | addressOf target =>
    cases target with
    | ident name =>
      simp only [emitExpr] at h
      split at h
      all_goals (injection h with h; subst h; exact emitsOk_emit _ _ (by simp))
    | index arr idxE =>
      cases arr with
      | ident arrName =>
        simp only [emitExpr] at h
        split at h
        · split at h
          · cases h
          · obtain ⟨stMid, hMid, hRest⟩ := bindOk h
            injection hRest with hRest
            subst hRest
            exact emitsOk_trans (emitExpr_emitsOk layout ctx st idxE stMid hMid)
              (emitsOk_trans (emitsOk_emit _ _ (by simp)) (emitsOk_emit _ _ (by simp)))
        · injection h with h
          subst h
          exact emitsOk_emit _ _ (by simp)
      | litBool b =>
        simp only [emitExpr] at h
        injection h with h
        subst h
        exact emitsOk_emit _ _ (by simp)
      | litInt n =>
        simp only [emitExpr] at h
        injection h with h
        subst h
        exact emitsOk_emit _ _ (by simp)
      | litStr v =>
        simp only [emitExpr] at h
        injection h with h
        subst h
        exact emitsOk_emit _ _ (by simp)
      | litNone =>
        simp only [emitExpr] at h
        injection h with h
        subst h
        exact emitsOk_emit _ _ (by simp)
      | unary o r =>
        simp only [emitExpr] at h
        injection h with h
        subst h
        exact emitsOk_emit _ _ (by simp)
      | binary l o r =>
        simp only [emitExpr] at h
        injection h with h
        subst h
        exact emitsOk_emit _ _ (by simp)
      | call c as =>
        simp only [emitExpr] at h
        injection h with h
        subst h
        exact emitsOk_emit _ _ (by simp)
      | index a i =>
        simp only [emitExpr] at h
        injection h with h
        subst h
        exact emitsOk_emit _ _ (by simp)
      | addressOf t =>
        simp only [emitExpr] at h
        injection h with h
        subst h
        exact emitsOk_emit _ _ (by simp)
    | litBool b =>
      simp only [emitExpr] at h
      injection h with h
      subst h
      exact emitsOk_emit _ _ (by simp)
    | litInt n =>
      simp only [emitExpr] at h
      injection h with h
      subst h
      exact emitsOk_emit _ _ (by simp)
    | litStr v =>
      simp only [emitExpr] at h
      injection h with h
      subst h
      exact emitsOk_emit _ _ (by simp)
    | litNone =>
      simp only [emitExpr] at h
      injection h with h
      subst h
      exact emitsOk_emit _ _ (by simp)
    | unary o r =>
      simp only [emitExpr] at h
      injection h with h
      subst h
      exact emitsOk_emit _ _ (by simp)
    | binary l o r =>
      simp only [emitExpr] at h
      injection h with h
      subst h
      exact emitsOk_emit _ _ (by simp)
    | call c as =>
      simp only [emitExpr] at h
      injection h with h
      subst h
      exact emitsOk_emit _ _ (by simp)
    | addressOf t =>
      simp only [emitExpr] at h
      injection h with h
      subst h
      exact emitsOk_emit _ _ (by simp)
  | unary op right =>
    simp only [emitExpr] at h
    obtain ⟨stMid, hMid, hRest⟩ := bindOk h
    have hM := emitExpr_emitsOk layout ctx st right stMid hMid
    split_ifs at hRest
    all_goals (injection hRest with hRest; subst hRest)
    · exact emitsOk_trans hM (emitsOk_emit _ _ (by simp))
    · exact emitsOk_trans hM (emitsOk_emit _ _ (by simp))
    · exact hM
  | binary l op r =>
    unfold emitExpr at h
    by_cases hand : op = "&&"
    · rw [if_pos hand] at h
      obtain ⟨stA, hA, h⟩ := bindOk h
      obtain ⟨stB, hB, h⟩ := bindOk h
      injection h with h
      subst h
      have E0 : EmitsOk st stA := emitExpr_emitsOk layout ctx st l stA hA
      have E2 : EmitsOk (emit stA ⟨.JZ, some 0⟩) stB :=
        emitExpr_emitsOk layout ctx (emit stA ⟨.JZ, some 0⟩) r stB hB
      obtain ⟨Δ0, h0⟩ := E0.1
      obtain ⟨Δb, hΔb⟩ := E2.1
      have hsB : stB.code = stA.code ++ ⟨.JZ, some 0⟩ :: Δb := by
        rw [hΔb]
        simp [emit]
      have E5 : EmitsOk st (emit (emit (emit (emit stB ⟨.JZ, some 0⟩) ⟨.PUSH_INT, some 1⟩)
          ⟨.JMP, some 0⟩) ⟨.PUSH_INT, some 0⟩) :=
        emitsOk_trans (emitsOk_trans (emitsOk_trans E0 (emitsOk_emit _ _ (by simp))) E2)
          (emitsOk_trans (emitsOk_trans (emitsOk_emit _ _ (by simp))
            (emitsOk_emit _ _ (by simp)))
           (emitsOk_trans (emitsOk_emit _ _ (by simp)) (emitsOk_emit _ _ (by simp))))
      have hs5 : (emit (emit (emit (emit stB ⟨.JZ, some 0⟩) ⟨.PUSH_INT, some 1⟩)
          ⟨.JMP, some 0⟩) ⟨.PUSH_INT, some 0⟩).code
          = stA.code ++ ⟨.JZ, some 0⟩ :: (Δb ++ [⟨.JZ, some 0⟩, ⟨.PUSH_INT, some 1⟩,
            ⟨.JMP, some 0⟩, ⟨.PUSH_INT, some 0⟩]) := by
        simp [emit, hsB]
      have P1 := emitsOk_patch E5 stA.code.length
        ((((emit (emit (emit stB ⟨.JZ, some 0⟩) ⟨.PUSH_INT, some 1⟩)
          ⟨.JMP, some 0⟩).code.length : Nat)) : Int)
        (by simp [h0]) (by rw [hs5, instrAt_append_cons_of _ _ _ _ rfl]; simp)
      have P2 := emitsOk_patch P1 stB.code.length
        ((((emit (emit (emit stB ⟨.JZ, some 0⟩) ⟨.PUSH_INT, some 1⟩)
          ⟨.JMP, some 0⟩).code.length : Nat)) : Int)
        (by rw [hsB, h0]; simp)
        (by
          simp only [instrAt_patchArg_op]
          rw [show (emit (emit (emit (emit stB ⟨.JZ, some 0⟩) ⟨.PUSH_INT, some 1⟩)
              ⟨.JMP, some 0⟩) ⟨.PUSH_INT, some 0⟩).code
              = (stA.code ++ ⟨.JZ, some 0⟩ :: Δb) ++ ⟨.JZ, some 0⟩ ::
                [⟨.PUSH_INT, some 1⟩, ⟨.JMP, some 0⟩, ⟨.PUSH_INT, some 0⟩]
            from by simp [emit, hsB]]
          rw [instrAt_append_cons_of _ _ _ _ (by simp [hsB])]
          simp)
      have P3 := emitsOk_patch P2 (emit (emit stB ⟨.JZ, some 0⟩) ⟨.PUSH_INT, some 1⟩).code.length
        (((emit (emit (emit (emit stB ⟨.JZ, some 0⟩) ⟨.PUSH_INT, some 1⟩)
          ⟨.JMP, some 0⟩) ⟨.PUSH_INT, some 0⟩).code.length : Nat) : Int)
        (by simp [emit, hsB, h0])
        (by
          simp only [instrAt_patchArg_op]
          rw [show (emit (emit (emit (emit stB ⟨.JZ, some 0⟩) ⟨.PUSH_INT, some 1⟩)
              ⟨.JMP, some 0⟩) ⟨.PUSH_INT, some 0⟩).code
              = (stA.code ++ ⟨.JZ, some 0⟩ :: Δb ++ [⟨.JZ, some 0⟩, ⟨.PUSH_INT, some 1⟩]) ++
                ⟨.JMP, some 0⟩ :: [⟨.PUSH_INT, some 0⟩]
            from by simp [emit, hsB]]
          rw [instrAt_append_cons_of _ _ _ _ (by simp [emit, hsB])]
          simp)
      exact P3
    · rw [if_neg hand] at h
      by_cases hor : op = "||"
      · rw [if_pos hor] at h
        obtain ⟨stA, hA, h⟩ := bindOk h
        obtain ⟨stB, hB, h⟩ := bindOk h
        injection h with h
        subst h
        have E0 : EmitsOk st stA := emitExpr_emitsOk layout ctx st l stA hA
        have E2 : EmitsOk (emit stA ⟨.JNZ, some 0⟩) stB :=
          emitExpr_emitsOk layout ctx (emit stA ⟨.JNZ, some 0⟩) r stB hB
        obtain ⟨Δ0, h0⟩ := E0.1
        obtain ⟨Δb, hΔb⟩ := E2.1
        have hsB : stB.code = stA.code ++ ⟨.JNZ, some 0⟩ :: Δb := by
          rw [hΔb]
          simp [emit]
        have E5 : EmitsOk st (emit (emit (emit (emit stB ⟨.JNZ, some 0⟩) ⟨.PUSH_INT, some 0⟩)
            ⟨.JMP, some 0⟩) ⟨.PUSH_INT, some 1⟩) :=
          emitsOk_trans (emitsOk_trans (emitsOk_trans E0 (emitsOk_emit _ _ (by simp))) E2)
            (emitsOk_trans (emitsOk_trans (emitsOk_emit _ _ (by simp))
              (emitsOk_emit _ _ (by simp)))
             (emitsOk_trans (emitsOk_emit _ _ (by simp)) (emitsOk_emit _ _ (by simp))))
        have hs5 : (emit (emit (emit (emit stB ⟨.JNZ, some 0⟩) ⟨.PUSH_INT, some 0⟩)
            ⟨.JMP, some 0⟩) ⟨.PUSH_INT, some 1⟩).code
            = stA.code ++ ⟨.JNZ, some 0⟩ :: (Δb ++ [⟨.JNZ, some 0⟩, ⟨.PUSH_INT, some 0⟩,
              ⟨.JMP, some 0⟩, ⟨.PUSH_INT, some 1⟩]) := by
          simp [emit, hsB]
        have P1 := emitsOk_patch E5 stA.code.length
          ((((emit (emit (emit stB ⟨.JNZ, some 0⟩) ⟨.PUSH_INT, some 0⟩)
            ⟨.JMP, some 0⟩).code.length : Nat)) : Int)
          (by simp [h0]) (by rw [hs5, instrAt_append_cons_of _ _ _ _ rfl]; simp)
        have P2 := emitsOk_patch P1 stB.code.length
          ((((emit (emit (emit stB ⟨.JNZ, some 0⟩) ⟨.PUSH_INT, some 0⟩)
            ⟨.JMP, some 0⟩).code.length : Nat)) : Int)
          (by rw [hsB, h0]; simp)
          (by
            simp only [instrAt_patchArg_op]
            rw [show (emit (emit (emit (emit stB ⟨.JNZ, some 0⟩) ⟨.PUSH_INT, some 0⟩)
                ⟨.JMP, some 0⟩) ⟨.PUSH_INT, some 1⟩).code
                = (stA.code ++ ⟨.JNZ, some 0⟩ :: Δb) ++ ⟨.JNZ, some 0⟩ ::
                  [⟨.PUSH_INT, some 0⟩, ⟨.JMP, some 0⟩, ⟨.PUSH_INT, some 1⟩]
              from by simp [emit, hsB]]
            rw [instrAt_append_cons_of _ _ _ _ (by simp [hsB])]
            simp)
        have P3 := emitsOk_patch P2
          (emit (emit stB ⟨.JNZ, some 0⟩) ⟨.PUSH_INT, some 0⟩).code.length
          (((emit (emit (emit (emit stB ⟨.JNZ, some 0⟩) ⟨.PUSH_INT, some 0⟩)
            ⟨.JMP, some 0⟩) ⟨.PUSH_INT, some 1⟩).code.length : Nat) : Int)
          (by simp [emit, hsB, h0])
          (by
            simp only [instrAt_patchArg_op]
            rw [show (emit (emit (emit (emit stB ⟨.JNZ, some 0⟩) ⟨.PUSH_INT, some 0⟩)
                ⟨.JMP, some 0⟩) ⟨.PUSH_INT, some 1⟩).code
                = (stA.code ++ ⟨.JNZ, some 0⟩ :: Δb ++ [⟨.JNZ, some 0⟩, ⟨.PUSH_INT, some 0⟩]) ++
                  ⟨.JMP, some 0⟩ :: [⟨.PUSH_INT, some 1⟩]
              from by simp [emit, hsB]]
            rw [instrAt_append_cons_of _ _ _ _ (by simp [emit, hsB])]
            simp)
        exact P3
      · rw [if_neg hor] at h
        obtain ⟨stA, hA, h⟩ := bindOk h
        obtain ⟨stB, hB, h⟩ := bindOk h
        have EAB : EmitsOk st stB :=
          emitsOk_trans (emitExpr_emitsOk layout ctx st l stA hA)
            (emitExpr_emitsOk layout ctx stA r stB hB)
        split_ifs at h
        all_goals (injection h with h; subst h)
        all_goals (first
          | exact emitsOk_trans EAB (emitsOk_emit _ _ (by simp))
          | exact EAB)
  | index arr idxE =>
    cases arr with
    | ident arrName =>
      simp only [emitExpr] at h
      split at h
      · split at h
        · cases h
        · obtain ⟨stMid, hMid, hRest⟩ := bindOk h
          injection hRest with hRest
          subst hRest
          exact emitsOk_trans (emitExpr_emitsOk layout ctx st idxE stMid hMid)
            (emitsOk_emit _ _ (by simp))
      · injection h with h
        subst h
        exact emitsOk_emit _ _ (by simp)
    | litBool b =>
      simp only [emitExpr] at h
      injection h with h
      subst h
      exact emitsOk_emit _ _ (by simp)
    | litInt n =>
      simp only [emitExpr] at h
      injection h with h
      subst h
      exact emitsOk_emit _ _ (by simp)
    | litStr v =>
      simp only [emitExpr] at h
      injection h with h
      subst h
      exact emitsOk_emit _ _ (by simp)
    | litNone =>
      simp only [emitExpr] at h
      injection h with h
      subst h
      exact emitsOk_emit _ _ (by simp)
    | unary o r =>
      simp only [emitExpr] at h
      injection h with h
      subst h
      exact emitsOk_emit _ _ (by simp)
    | binary l o r =>
      simp only [emitExpr] at h
      injection h with h
      subst h
      exact emitsOk_emit _ _ (by simp)
    | call c as =>
      simp only [emitExpr] at h
      injection h with h
      subst h
      exact emitsOk_emit _ _ (by simp)
    | index a i =>
      simp only [emitExpr] at h
      injection h with h
      subst h
      exact emitsOk_emit _ _ (by simp)
    | addressOf t =>
      simp only [emitExpr] at h
      injection h with h
      subst h
      exact emitsOk_emit _ _ (by simp)
  | call name args =>
    unfold emitExpr at h
    split at h
    case h_1 x b heq => exact Expr.noConfusion heq
    case h_2 x n heq => exact Expr.noConfusion heq
    case h_3 x v heq => exact Expr.noConfusion heq
    case h_4 x heq => exact Expr.noConfusion heq
    case h_5 x nm heq => exact Expr.noConfusion heq
    case h_6 x t heq => exact Expr.noConfusion heq
    case h_7 x o r heq => exact Expr.noConfusion heq
    case h_8 x l o r heq => exact Expr.noConfusion heq
    case h_9 x arr idx heq => exact Expr.noConfusion heq
    case h_10 x arrE lenE valE heq =>
      injection heq with hn ha
      subst hn
      subst ha
      split at h
      · split_ifs at h
        · split at h
          · cases h
          · obtain ⟨s1, h1, h⟩ := bindOk h
            obtain ⟨s2, h2, h⟩ := bindOk h
            obtain ⟨s3, h3, h⟩ := bindOk h
            injection h with h
            subst h
            exact emitsOk_trans (emitExpr_emitsOk layout ctx st valE s1 h1)
              (emitsOk_trans (emitExpr_emitsOk layout ctx s1 lenE s2 h2)
                (emitsOk_trans (emitsOk_emit _ _ (by simp))
                  (emitsOk_trans (emitExpr_emitsOk layout ctx _ lenE s3 h3)
                    (emitsOk_trans (emitsOk_emit _ _ (by simp))
                      (emitsOk_emit _ _ (by simp))))))
        · obtain ⟨s1, h1, h⟩ := bindOk h
          injection h with h
          subst h
          exact emitsOk_trans (emitExpr_emitsOk layout ctx st lenE s1 h1)
            (emitsOk_trans (emitsOk_emit _ _ (by simp)) (emitsOk_emit _ _ (by simp)))
      · obtain ⟨s1, h1, h⟩ := bindOk h
        injection h with h
        subst h
        exact emitsOk_trans (emitExpr_emitsOk layout ctx st lenE s1 h1)
          (emitsOk_trans (emitsOk_emit _ _ (by simp)) (emitsOk_emit _ _ (by simp)))
    case h_11 x arrE lenE heq =>
      injection heq with hn ha
      subst hn
      subst ha
      split at h
      · split_ifs at h
        · split at h
          · cases h
          · obtain ⟨s1, h1, h⟩ := bindOk h
            injection h with h
            subst h
            exact emitsOk_trans (emitExpr_emitsOk layout ctx st lenE s1 h1)
              (emitsOk_trans (emitsOk_emit _ _ (by simp))
                (emitsOk_trans (emitsOk_emit _ _ (by simp)) (emitsOk_emit _ _ (by simp))))
        · injection h with h
          subst h
          exact emitsOk_emit _ _ (by simp)
      · injection h with h
        subst h
        exact emitsOk_emit _ _ (by simp)
    case h_12 x pE heq =>
      injection heq with hn ha
      subst hn
      subst ha
      obtain ⟨s1, h1, h⟩ := bindOk h
      injection h with h
      subst h
      exact emitsOk_trans (emitExpr_emitsOk layout ctx st pE s1 h1)
        (emitsOk_emit _ _ (by simp))
    case h_13 x pE vE heq =>
      injection heq with hn ha
      subst hn
      subst ha
      obtain ⟨s1, h1, h⟩ := bindOk h
      obtain ⟨s2, h2, h⟩ := bindOk h
      injection h with h
      subst h
      exact emitsOk_trans (emitExpr_emitsOk layout ctx st pE s1 h1)
        (emitsOk_trans (emitExpr_emitsOk layout ctx s1 vE s2 h2)
          (emitsOk_trans (emitsOk_emit _ _ (by simp)) (emitsOk_emit _ _ (by simp))))
    case h_14 x dE sE cE heq =>
      injection heq with hn ha
      subst hn
      subst ha
      obtain ⟨s1, h1, h⟩ := bindOk h
      obtain ⟨s2, h2, h⟩ := bindOk h
      obtain ⟨s3, h3, h⟩ := bindOk h
      injection h with h
      subst h
      exact emitsOk_trans (emitExpr_emitsOk layout ctx st dE s1 h1)
        (emitsOk_trans (emitExpr_emitsOk layout ctx s1 sE s2 h2)
          (emitsOk_trans (emitExpr_emitsOk layout ctx s2 cE s3 h3)
            (emitsOk_trans (emitsOk_emit _ _ (by simp)) (emitsOk_emit _ _ (by simp)))))
    case h_15 x dE vE cE heq =>
      injection heq with hn ha
      subst hn
      subst ha
      obtain ⟨s1, h1, h⟩ := bindOk h
      obtain ⟨s2, h2, h⟩ := bindOk h
      obtain ⟨s3, h3, h⟩ := bindOk h
      injection h with h
      subst h
      exact emitsOk_trans (emitExpr_emitsOk layout ctx st dE s1 h1)
        (emitsOk_trans (emitExpr_emitsOk layout ctx s1 vE s2 h2)
          (emitsOk_trans (emitExpr_emitsOk layout ctx s2 cE s3 h3)
            (emitsOk_trans (emitsOk_emit _ _ (by simp)) (emitsOk_emit _ _ (by simp)))))
    case h_16 x aE bE heq =>
      injection heq with hn ha
      subst hn
      subst ha
      obtain ⟨s1, h1, h⟩ := bindOk h
      obtain ⟨s2, h2, h⟩ := bindOk h
      injection h with h
      subst h
      exact emitsOk_trans (emitExpr_emitsOk layout ctx st aE s1 h1)
        (emitsOk_trans (emitExpr_emitsOk layout ctx s1 bE s2 h2)
          (emitsOk_emit _ _ (by simp)))
    case h_17 x mE xE yE heq =>
      injection heq with hn ha
      subst hn
      subst ha
      obtain ⟨s1, h1, h⟩ := bindOk h
      obtain ⟨s2, h2, h⟩ := bindOk h
      obtain ⟨s3, h3, h⟩ := bindOk h
      obtain ⟨s4, h4, h⟩ := bindOk h
      injection h with h
      subst h
      exact emitsOk_trans (emitExpr_emitsOk layout ctx st xE s1 h1)
        (emitsOk_trans (emitExpr_emitsOk layout ctx s1 yE s2 h2)
          (emitsOk_trans (emitsOk_emit _ _ (by simp))
            (emitsOk_trans (emitExpr_emitsOk layout ctx _ mE s3 h3)
              (emitsOk_trans (emitsOk_emit _ _ (by simp))
                (emitsOk_trans (emitExpr_emitsOk layout ctx _ yE s4 h4)
                  (emitsOk_emit _ _ (by simp)))))))
    case h_18 x nm as d1 d2 d3 d4 d5 d6 d7 d8 heq =>
      injection heq with hn ha
      subst hn
      subst ha
      split at h
      · injection h with h
        subst h
        exact emitsOk_emit _ _ (by simp)
      · rename_i fnId hlook
        obtain ⟨s1, h1, h⟩ := bindOk h
        injection h with h
        subst h
        have E1 : EmitsOk st s1 := emitExprs_emitsOk layout ctx st _ s1 h1
        refine emitsOk_trans E1 (emitsOk_emit_call s1 fnId ⟨name, ?_⟩)
        rw [E1.2.2.1]
        exact hlook

theorem emitExprs_emitsOk (layout : FunctionLayout) (ctx : Ctx) (st : CGState)
    (es : List Expr) (st' : CGState) (h : emitExprs layout ctx st es = .ok st') :
    EmitsOk st st' := by
  cases es with
  | nil =>
    simp only [emitExprs] at h
    injection h with h
    subst h
    exact emitsOk_refl st
  | cons e rest =>
    simp only [emitExprs] at h
    obtain ⟨stMid, hMid, hRest⟩ := bindOk h
    exact emitsOk_trans (emitExpr_emitsOk layout ctx st e stMid hMid)
      (emitExprs_emitsOk layout ctx stMid rest st' hRest)

end

set_option maxHeartbeats 4000000 in
theorem vmAsmCore_emitsOk (layout : FunctionLayout) (st : CGState) (line : String)
    (st' : CGState) (h : vmAsmCore layout st line = .ok st') : EmitsOk st st' := by
  unfold vmAsmCore at h
  by_cases hline : line = ""
  · rw [if_pos hline] at h
    injection h with h
    subst h
    exact emitsOk_refl st
  · rw [if_neg hline] at h
    split at h
    · cases h
    · rename_i x mnemonic args heq
      by_cases c1 : mnemonic = "push_int" ∧ args.length = 1
      · rw [if_pos c1] at h
        split at h
        · cases h
        · injection h with h
          subst h
          exact emitsOk_emit _ _ (by simp)
      · rw [if_neg c1] at h
        by_cases c2 : mnemonic = "load_local" ∧ args.length = 1
        · rw [if_pos c2] at h
          split at h
          · cases h
          · injection h with h
            subst h
            exact emitsOk_emit _ _ (by simp)
        · rw [if_neg c2] at h
          by_cases c3 : mnemonic = "store_local" ∧ args.length = 1
          · rw [if_pos c3] at h
            split at h
            · cases h
            · injection h with h
              subst h
              exact emitsOk_emit _ _ (by simp)
          · rw [if_neg c3] at h
            by_cases c4 : mnemonic = "add" ∧ args = []
            · rw [if_pos c4] at h
              injection h with h
              subst h
              exact emitsOk_emit _ _ (by simp)
            · rw [if_neg c4] at h
              by_cases c5 : mnemonic = "sub" ∧ args = []
              · rw [if_pos c5] at h
                injection h with h
                subst h
                exact emitsOk_emit _ _ (by simp)
              · rw [if_neg c5] at h
                by_cases c6 : mnemonic = "mul" ∧ args = []
                · rw [if_pos c6] at h
                  injection h with h
                  subst h
                  exact emitsOk_emit _ _ (by simp)
                · rw [if_neg c6] at h
                  by_cases c7 : mnemonic = "div" ∧ args = []
                  · rw [if_pos c7] at h
                    injection h with h
                    subst h
                    exact emitsOk_emit _ _ (by simp)
                  · rw [if_neg c7] at h
                    by_cases c8 : mnemonic = "neg" ∧ args = []
                    · rw [if_pos c8] at h
                      injection h with h
                      subst h
                      exact emitsOk_emit _ _ (by simp)
                    · rw [if_neg c8] at h
                      by_cases c9 : mnemonic = "not" ∧ args = []
                      · rw [if_pos c9] at h
                        injection h with h
                        subst h
                        exact emitsOk_emit _ _ (by simp)
                      · rw [if_neg c9] at h
                        by_cases c10 : mnemonic = "cmp_eq" ∧ args = []
                        · rw [if_pos c10] at h
                          injection h with h
                          subst h
                          exact emitsOk_emit _ _ (by simp)
                        · rw [if_neg c10] at h
                          by_cases c11 : mnemonic = "cmp_ne" ∧ args = []
                          · rw [if_pos c11] at h
                            injection h with h
                            subst h
                            exact emitsOk_emit _ _ (by simp)
                          · rw [if_neg c11] at h
                            by_cases c12 : mnemonic = "cmp_lt" ∧ args = []
                            · rw [if_pos c12] at h
                              injection h with h
                              subst h
                              exact emitsOk_emit _ _ (by simp)
                            · rw [if_neg c12] at h
                              by_cases c13 : mnemonic = "cmp_le" ∧ args = []
                              · rw [if_pos c13] at h
                                injection h with h
                                subst h
                                exact emitsOk_emit _ _ (by simp)
                              · rw [if_neg c13] at h
                                by_cases c14 : mnemonic = "cmp_gt" ∧ args = []
                                · rw [if_pos c14] at h
                                  injection h with h
                                  subst h
                                  exact emitsOk_emit _ _ (by simp)
                                · rw [if_neg c14] at h
                                  by_cases c15 : mnemonic = "cmp_ge" ∧ args = []
                                  · rw [if_pos c15] at h
                                    injection h with h
                                    subst h
                                    exact emitsOk_emit _ _ (by simp)
                                  · rw [if_neg c15] at h
                                    cases h

theorem vmAsmLine_emitsOk (layout : FunctionLayout) (st : CGState) (raw : String)
    (st' : CGState) (h : vmAsmLine layout st raw = .ok st') : EmitsOk st st' := by
  unfold vmAsmLine at h
  split_ifs at h
  · injection h with h
    subst h
    exact emitsOk_refl st
  · exact vmAsmCore_emitsOk layout st _ st' h
  · exact vmAsmCore_emitsOk layout st _ st' h

theorem emitVmAsm_emitsOk (layout : FunctionLayout) (code : String) (st st' : CGState)
    (h : emitVmAsm layout st code = .ok st') : EmitsOk st st' := by
  unfold emitVmAsm at h
  generalize hl : code.splitOn "\n" = lines at h
  clear hl
  induction lines generalizing st with
  | nil =>
    simp only [List.foldlM] at h
    injection h with h
    subst h
    exact emitsOk_refl st
  | cons l ls ih =>
    simp only [List.foldlM] at h
    obtain ⟨s1, h1, h2⟩ := bindOk h
    exact emitsOk_trans (vmAsmLine_emitsOk layout st l s1 h1) (ih s1 h2)

theorem zeroArray_emitsOk (st : CGState) (idx length : Nat) :
    EmitsOk st (zeroArray st idx length) := by
  unfold zeroArray
  generalize (List.range length) = l
  induction l generalizing st with
  | nil => exact emitsOk_refl st
  | cons a t ih =>
    simp only [List.foldl]
    exact emitsOk_trans
      (emitsOk_trans (emitsOk_emit _ _ (by simp)) (emitsOk_emit _ _ (by simp))) (ih _)

mutual

theorem emitStmt_emitsOk (layout : FunctionLayout) (ctx : Ctx) (st : CGState) (s : Stmt)
    (st' : CGState) (h : emitStmt layout ctx st s = .ok st') : EmitsOk st st' := by
  cases s with
  | varDecl name typeName init =>
    simp only [emitStmt] at h
    split at h
    · cases h
    · split at h
      · injection h with h
        subst h
        exact zeroArray_emitsOk st _ _
      · cases init with
        | some e =>
          obtain ⟨s1, h1, h⟩ := bindOk h
          injection h with h
          subst h
          exact emitsOk_trans (emitExpr_emitsOk layout ctx st e s1 h1)
            (emitsOk_emit _ _ (by simp))
        | none =>
          obtain ⟨s1, h1, h⟩ := bindOk h
          injection h1 with h1
          subst h1
          injection h with h
          subst h
          exact emitsOk_trans (emitsOk_emit _ _ (by simp)) (emitsOk_emit _ _ (by simp))
  | assign target value =>
    simp only [emitStmt] at h
    split at h
    · split at h
      · injection h with h
        subst h
        exact emitsOk_refl st
      · obtain ⟨s1, h1, h⟩ := bindOk h
        injection h with h
        subst h
        exact emitsOk_trans (emitExpr_emitsOk layout ctx st value s1 h1)
          (emitsOk_emit _ _ (by simp))
    · split_ifs at h
      · split at h
        · cases h
        · obtain ⟨s1, h1, h⟩ := bindOk h
          obtain ⟨s2, h2, h⟩ := bindOk h
          injection h with h
          subst h
          exact emitsOk_trans (emitExpr_emitsOk layout ctx st value s1 h1)
            (emitsOk_trans (emitExpr_emitsOk layout ctx s1 _ s2 h2)
              (emitsOk_emit _ _ (by simp)))
      · injection h with h
        subst h
        exact emitsOk_refl st
    · injection h with h
      subst h
      exact emitsOk_refl st
  | print value =>
    simp only [emitStmt] at h
    obtain ⟨s1, h1, h⟩ := bindOk h
    have E1 := emitExpr_emitsOk layout ctx st value s1 h1
    split_ifs at h
    all_goals (injection h with h; subst h; exact emitsOk_trans E1 (emitsOk_emit _ _ (by simp)))
  | println value =>
    simp only [emitStmt] at h
    obtain ⟨s1, h1, h⟩ := bindOk h
    have E1 := emitExpr_emitsOk layout ctx st value s1 h1
    split_ifs at h
    all_goals (injection h with h; subst h; exact emitsOk_trans E1 (emitsOk_emit _ _ (by simp)))
  | ret value =>
    simp only [emitStmt] at h
    cases value with
    | some e =>
      obtain ⟨s1, h1, h⟩ := bindOk h
      injection h with h
      subst h
      exact emitsOk_trans (emitExpr_emitsOk layout ctx st e s1 h1)
        (emitsOk_emit _ _ (by simp))
    | none =>
      obtain ⟨s1, h1, h⟩ := bindOk h
      injection h1 with h1
      subst h1
      injection h with h
      subst h
      exact emitsOk_trans (emitsOk_emit _ _ (by simp)) (emitsOk_emit _ _ (by simp))
  | exprStmt e =>
    simp only [emitStmt] at h
    exact emitExpr_emitsOk layout ctx st e st' h
  | inlineAsm code =>
    simp only [emitStmt] at h
    injection h with h
    subst h
    exact emitsOk_refl st
  | vmAsm code =>
    simp only [emitStmt] at h
    exact emitVmAsm_emitsOk layout code st st' h
  | ifS cond thenBlock elseBlock =>
    unfold emitStmt at h
    obtain ⟨s1, h1, h⟩ := bindOk h
    obtain ⟨sT, hT, h⟩ := bindOk h
    have E1 : EmitsOk st s1 := emitExpr_emitsOk layout ctx st cond s1 h1
    have ET : EmitsOk (emit s1 ⟨.JZ, some 0⟩) sT :=
      emitStmts_emitsOk layout ctx (emit s1 ⟨.JZ, some 0⟩) thenBlock sT hT
    obtain ⟨Δ0, h0⟩ := E1.1
    obtain ⟨Δt, hΔt⟩ := ET.1
    have hsT : sT.code = s1.code ++ ⟨.JZ, some 0⟩ :: Δt := by
      rw [hΔt]
      simp [emit]
    have EJ : EmitsOk st (emit sT ⟨.JMP, some 0⟩) :=
      emitsOk_trans (emitsOk_trans (emitsOk_trans E1 (emitsOk_emit _ _ (by simp))) ET)
        (emitsOk_emit _ _ (by simp))
    have P1 : EmitsOk st { emit sT ⟨.JMP, some 0⟩ with
        code := patchArg (emit sT ⟨.JMP, some 0⟩).code s1.code.length
          (((emit sT ⟨.JMP, some 0⟩).code.length : Nat) : Int) } := by
      refine emitsOk_patch EJ _ _ (by simp [h0]) ?_
      rw [show (emit sT ⟨.JMP, some 0⟩).code
          = s1.code ++ ⟨.JZ, some 0⟩ :: (Δt ++ [⟨.JMP, some 0⟩]) from by simp [emit, hsT]]
      rw [instrAt_append_cons_of _ _ _ _ rfl]
      simp
    cases elseBlock with
    | some elseStmts =>
      obtain ⟨sE, hE, h⟩ := bindOk h
      injection h with h
      subst h
      have EE : EmitsOk { emit sT ⟨.JMP, some 0⟩ with
          code := patchArg (emit sT ⟨.JMP, some 0⟩).code s1.code.length
            (((emit sT ⟨.JMP, some 0⟩).code.length : Nat) : Int) } sE :=
        emitStmts_emitsOk layout ctx _ elseStmts sE hE
      obtain ⟨Δe, hΔe⟩ := EE.1
      refine emitsOk_patch (emitsOk_trans P1 EE) sT.code.length
        ((sE.code.length : Nat) : Int) (by rw [hsT, h0]; simp) ?_
      rw [hΔe]
      have hlt : sT.code.length <
          (patchArg (emit sT ⟨.JMP, some 0⟩).code s1.code.length
            (((emit sT ⟨.JMP, some 0⟩).code.length : Nat) : Int)).length := by
        rw [patchArg_length]
        simp [emit]
      rw [instrAt_append_left _ _ _ hlt]
      by_cases hij : sT.code.length = s1.code.length
      · rw [hsT] at hij
        simp at hij
      · rw [instrAt_patchArg_ne _ _ _ _ hij]
        rw [show (emit sT ⟨.JMP, some 0⟩).code = sT.code ++ [⟨.JMP, some 0⟩] from by simp [emit]]
        rw [instrAt_snoc_len]
        simp
    | none =>
      obtain ⟨sE, hE, h⟩ := bindOk h
      injection h with h
      subst h
      have EE : EmitsOk { emit sT ⟨.JMP, some 0⟩ with
          code := patchArg (emit sT ⟨.JMP, some 0⟩).code s1.code.length
            (((emit sT ⟨.JMP, some 0⟩).code.length : Nat) : Int) } sE := by
        injection hE with hE
        rw [← hE]
        exact emitsOk_refl _
      obtain ⟨Δe, hΔe⟩ := EE.1
      refine emitsOk_patch (emitsOk_trans P1 EE) sT.code.length
        ((sE.code.length : Nat) : Int) (by rw [hsT, h0]; simp) ?_
      rw [hΔe]
      have hlt : sT.code.length <
          (patchArg (emit sT ⟨.JMP, some 0⟩).code s1.code.length
            (((emit sT ⟨.JMP, some 0⟩).code.length : Nat) : Int)).length := by
        rw [patchArg_length]
        simp [emit]
      rw [instrAt_append_left _ _ _ hlt]
      by_cases hij : sT.code.length = s1.code.length
      · rw [hsT] at hij
        simp at hij
      · rw [instrAt_patchArg_ne _ _ _ _ hij]
        rw [show (emit sT ⟨.JMP, some 0⟩).code = sT.code ++ [⟨.JMP, some 0⟩] from by simp [emit]]
        rw [instrAt_snoc_len]
        simp
  | whileS cond body =>
    simp only [emitStmt] at h
    obtain ⟨s1, h1, h⟩ := bindOk h
    obtain ⟨sB, hB, h⟩ := bindOk h
    injection h with h
    subst h
    have E1 : EmitsOk st s1 := emitExpr_emitsOk layout ctx st cond s1 h1
    have EB : EmitsOk (emit s1 ⟨.JZ, some 0⟩) sB :=
      emitStmts_emitsOk layout ctx (emit s1 ⟨.JZ, some 0⟩) body sB hB
    obtain ⟨Δ0, h0⟩ := E1.1
    obtain ⟨Δb, hΔb⟩ := EB.1
    have hsB : sB.code = s1.code ++ ⟨.JZ, some 0⟩ :: Δb := by
      rw [hΔb]
      simp [emit]
    have EJ : EmitsOk st (emit sB ⟨.JMP, some ((st.code.length : Nat) : Int)⟩) :=
      emitsOk_trans (emitsOk_trans (emitsOk_trans E1 (emitsOk_emit _ _ (by simp))) EB)
        (emitsOk_emit _ _ (by simp))
    refine emitsOk_patch EJ s1.code.length _ (by simp [h0]) ?_
    rw [show (emit sB ⟨.JMP, some ((st.code.length : Nat) : Int)⟩).code
        = s1.code ++ ⟨.JZ, some 0⟩ ::
          (Δb ++ [⟨.JMP, some ((st.code.length : Nat) : Int)⟩]) from by simp [emit, hsB]]
    rw [instrAt_append_cons_of _ _ _ _ rfl]
    simp
termination_by sizeOf s

theorem emitStmts_emitsOk (layout : FunctionLayout) (ctx : Ctx) (st : CGState)
    (l : List Stmt) (st' : CGState) (h : emitStmts layout ctx st l = .ok st') :
    EmitsOk st st' := by
  cases l with
  | nil =>
    simp only [emitStmts] at h
    injection h with h
    subst h
    exact emitsOk_refl st
  | cons s rest =>
    simp only [emitStmts] at h
    obtain ⟨s1, h1, h2⟩ := bindOk h
    exact emitsOk_trans (emitStmt_emitsOk layout ctx st s s1 h1)
      (emitStmts_emitsOk layout ctx s1 rest st' h2)
termination_by sizeOf l

end

theorem emitFunction_emitsOk (fn : Function) (layout : FunctionLayout) (ctx : Ctx)
    (st st' : CGState) (h : emitFunction fn layout ctx st = .ok st') : EmitsOk st st' := by
  simp only [emitFunction] at h
  obtain ⟨s1, h1, h⟩ := bindOk h
  injection h with h
  subst h
  have E1 : EmitsOk st s1 := emitStmts_emitsOk layout ctx st fn.body s1 h1
  by_cases hrt : fn.returnType = none ∨ fn.returnType = some "int"
  · rw [if_pos hrt]
    exact emitsOk_trans E1
      (emitsOk_trans (emitsOk_emit _ _ (by simp)) (emitsOk_emit _ _ (by simp)))
  · rw [if_neg hrt]
    exact emitsOk_trans E1 (emitsOk_emit _ _ (by simp))

theorem genStep_genOk (st : CGState) (fn : Function) (h : GenOk st) :
    GenOk { st with
      functions := st.functions ++ [{ buildLayout fn with entryPc := st.code.length }],
      funcNameToIndex := (fn.name, st.functions.length) :: st.funcNameToIndex } := by
  obtain ⟨hidx, hcalls⟩ := h
  constructor
  · intro p hp
    simp only [List.mem_cons] at hp
    rcases hp with hp | hp
    · subst hp
      simp
    · have := hidx p hp
      simp only [List.length_append, List.length_singleton]
      omega
  · intro i hcall
    obtain ⟨k, hk, hlt⟩ := hcalls i hcall
    refine ⟨k, hk, ?_⟩
    simp only [List.length_append, List.length_singleton]
    omega

theorem genFunctions_genOk (ctx : Ctx) : ∀ (fns : List Function) (st st' : CGState),
    GenOk st → genFunctions ctx st fns = .ok st' → GenOk st'
  | [], st, st', hok, h => by
    simp only [genFunctions] at h
    injection h with h
    subst h
    exact hok
  | fn :: rest, st, st', hok, h => by
    simp only [genFunctions] at h
    obtain ⟨s1, h1, h2⟩ := bindOk h
    have hok1 := genStep_genOk st fn hok
    have E := emitFunction_emitsOk fn _ ctx _ s1 h1
    have hok2 : GenOk s1 := by
      obtain ⟨hΔ, hf, hn, hv⟩ := E
      exact ⟨funcIdxOk_transport hf hn hok1.1, hv hok1.1 hok1.2⟩
    exact genFunctions_genOk ctx rest s1 st' hok2 h2

theorem initCG_genOk : GenOk initCG := by
  constructor
  · intro p hp
    simp [initCG] at hp
  · intro i hcall
    simp [initCG, instrAt] at hcall

theorem generate_callsValid (program : Program) (ctx : Ctx) (st : CGState)
    (h : generate program ctx = .ok st) : CallsValid st :=
  (genFunctions_genOk ctx program.functions initCG st initCG_genOk h).2

theorem emitExpr_call_not_special (layout : FunctionLayout) (ctx : Ctx) (st : CGState)
    (name : String) (args : List Expr) (hspec : specialCall name args.length = false) :
    emitExpr layout ctx st (.call name args) =
      (match st.funcNameToIndex.lookup name with
      | none => .ok (emit st ⟨.PUSH_INT, some 0⟩)
      | some fnId => do
        let stA ← emitExprs layout ctx st args
        .ok (emit stA ⟨.CALL, some (fnId : Int)⟩)) := by
  unfold emitExpr
  split
  all_goals rename_i heq
  all_goals try exact Expr.noConfusion heq
  all_goals injection heq with hn ha
  all_goals subst hn
  all_goals subst ha
  all_goals try rfl
  all_goals simp [specialCall] at hspec

/-- C1 counterexample: in `progForwardCall`, `main` calls the user-defined
function `f`, which is defined later in the program text — a well-typed
program (the semantic analyzer collects all signatures before checking any
body). The generator registers a function name only when it reaches that
function, so while emitting `main` the name `f` is still unregistered and
the call lowers to `PUSH_INT 0`: the compiled program contains no `CALL`
instruction at all, refuting "evaluates the arguments ... then emits a CALL
... for every user call, including calls whose callee is defined later". -/
theorem c1_counterexample_forward_call_emits_no_call :
    ∃ st, generate progForwardCall ctxInt = .ok st ∧
      st.code = [⟨.PUSH_INT, some 0⟩, ⟨.RET, none⟩, ⟨.PUSH_INT, some 0⟩, ⟨.RET, none⟩,
        ⟨.PUSH_INT, some 7⟩, ⟨.RET, none⟩, ⟨.PUSH_INT, some 0⟩, ⟨.RET, none⟩] ∧
      ∀ i ∈ st.code, i.op ≠ OpCode.CALL := by
  refine ⟨_, rfl, rfl, ?_⟩
  decide

/-- C1 amended: lowering a call to a user-defined function that is already
registered (every callee defined at or before the calling function) emits
the argument expressions left to right followed by `CALL idx` with `idx`
the callee's registered index; a callee not yet registered (defined later
in the program text) instead lowers to `PUSH_INT 0` — the arguments are
not even evaluated. Every `CALL` operand that `generate` does emit is a
valid index into the function table. -/
theorem c1_amended_user_call_lowering (layout : FunctionLayout) (ctx : Ctx)
    (st stA : CGState) (name : String) (args : List Expr) (idx : Nat)
    (hspec : specialCall name args.length = false) :
    (st.funcNameToIndex.lookup name = none →
      emitExpr layout ctx st (.call name args) = .ok (emit st ⟨.PUSH_INT, some 0⟩)) ∧
    (st.funcNameToIndex.lookup name = some idx →
      emitExprs layout ctx st args = .ok stA →
      emitExpr layout ctx st (.call name args) = .ok (emit stA ⟨.CALL, some (idx : Int)⟩)) ∧
    (∀ program ctx2 stG, generate program ctx2 = .ok stG → CallsValid stG) := by
  refine ⟨?_, ?_, fun program ctx2 stG hg => generate_callsValid program ctx2 stG hg⟩
  · intro hlook
    rw [emitExpr_call_not_special layout ctx st name args hspec, hlook]
  · intro hlook hargs
    rw [emitExpr_call_not_special layout ctx st name args hspec, hlook]
    simp only [bind, Except.bind, hargs]

/-- C1 witness: the amended lowering statement instantiated at a generator
state that has `f` registered at index 0, with an empty argument list. -/
theorem c1_amended_user_call_lowering_witness :
    specialCall "f" ([] : List Expr).length = false ∧
    ((cgWithF.funcNameToIndex.lookup "f" = none →
      emitExpr layoutW ctxInt cgWithF (.call "f" []) = .ok (emit cgWithF ⟨.PUSH_INT, some 0⟩)) ∧
     (cgWithF.funcNameToIndex.lookup "f" = some 0 →
      emitExprs layoutW ctxInt cgWithF [] = .ok cgWithF →
      emitExpr layoutW ctxInt cgWithF (.call "f" []) =
        .ok (emit cgWithF ⟨.CALL, some ((0 : Nat) : Int)⟩)) ∧
     (∀ program ctx2 stG, generate program ctx2 = .ok stG → CallsValid stG)) :=
  ⟨by decide, c1_amended_user_call_lowering layoutW ctxInt cgWithF cgWithF "f" [] 0 (by decide)⟩
